import Mathlib

/-!
Shallow embedding of the relationship-resolution and link-construction engine
of the ICDD_Creator repository (Core/rdf_utils.py, Core/import_csv.py,
Core/file_utils.py).

RDF graphs are modelled as lists of triples over a node type distinguishing
URI references from literals; rdflib's `Graph.add` becomes list append, and
`uuid.uuid4`-based URI generation becomes a threaded counter producing fresh
suffixes.  Python string operations are modelled on `List Char`.
-/

namespace ICDD

/-- An RDF node: a URI reference or a literal (we only track the lexical form,
matching `str(o)` comparisons in the source). -/
inductive Node where
  | uri (s : String)
  | lit (s : String)
deriving DecidableEq, Repr

/-- An RDF triple (subject, predicate, object), as added via `g.add((s,p,o))`. -/
structure Triple where
  s : Node
  p : Node
  o : Node
deriving DecidableEq, Repr

/-- An rdflib `Graph`, modelled as the list of triples in insertion order. -/
abbrev Graph := List Triple

/-- The lexical payload of a node, matching Python `str(o)`. -/
def Node.str : Node → String
  | .uri s => s
  | .lit s => s

-- ---------------------------------------------------------------------------
-- Python string primitives, modelled on `List Char`
-- ---------------------------------------------------------------------------

/-- Python whitespace test used by `str.strip()` (ASCII whitespace). -/
def isPyWs (c : Char) : Bool := c == ' ' || c == '\t' || c == '\n' || c == '\r'

/-- Strip whitespace from both ends of a character list (`str.strip()`). -/
def stripChars (l : List Char) : List Char :=
  ((l.dropWhile isPyWs).reverse.dropWhile isPyWs).reverse

/-- Python `s.strip()`. -/
def pyStrip (s : String) : String := ⟨stripChars s.toList⟩

/-- Python `s.lower()` (ASCII case fold, which is all the source needs). -/
def pyLower (s : String) : String := ⟨s.toList.map Char.toLower⟩

/-- Python `s.replace(c, "")` for a single-character pattern: remove all
occurrences of the character. -/
def removeChar (c : Char) (s : String) : String := ⟨s.toList.filter (fun a => a != c)⟩

/-- Python `s.replace("\\", "/")`: turn every backslash into a forward slash. -/
def slashify (s : String) : String :=
  ⟨s.toList.map (fun c => if c == '\\' then '/' else c)⟩

/-- Python `s.lstrip("\\/")`: drop leading backslashes and forward slashes. -/
def lstripSlashes (s : String) : String :=
  ⟨s.toList.dropWhile (fun c => c == '\\' || c == '/')⟩

/-- Python `x or d` for an optional string `x`: `d` when `x` is absent or
empty, else the string itself. -/
def pyOr (x : Option String) (d : String) : String :=
  match x with
  | none => d
  | some s => if s = "" then d else s

/-- Python truthiness of an optional string: present and non-empty. -/
def truthyB (x : Option String) : Bool :=
  match x with
  | none => false
  | some s => s != ""

/-- Does the character list `l` start with `p`? -/
def startsWithChars : List Char → List Char → Bool
  | [], _ => true
  | _ :: _, [] => false
  | a :: as, b :: bs => a == b && startsWithChars as bs

/-- Does the character list `l` contain `sub` as a contiguous run? -/
def containsChars (sub : List Char) : List Char → Bool
  | [] => startsWithChars sub []
  | l@(_ :: t) => startsWithChars sub l || containsChars sub t

/-- Does the string `s` contain `sub` as a substring? -/
def strContains (s sub : String) : Bool := containsChars sub.toList s.toList

/-- Does the string `s` start with the string `p`? -/
def strStarts (p s : String) : Bool := startsWithChars p.toList s.toList

-- ---------------------------------------------------------------------------
-- Namespaces and vocabulary (Core/rdf_utils.py, Core/import_csv.py)
-- ---------------------------------------------------------------------------

/-- The `ls:` (ISO 21597 part 1 Linkset) namespace string. -/
def lsBase : String := "https://standards.iso.org/iso/21597/-1/ed-1/en/Linkset#"

/-- The `els:` (ISO 21597 part 2 ExtendedLinkset) namespace string. -/
def elsBase : String := "https://standards.iso.org/iso/21597/-2/ed-1/en/ExtendedLinkset#"

/-- The `ct:` (ISO 21597 part 1 Container) namespace string. -/
def ctBase : String := "https://standards.iso.org/iso/21597/-1/ed-1/en/Container#"

def rdfTypeP : Node := .uri "http://www.w3.org/1999/02/22-rdf-syntax-ns#type"
def rdfsCommentP : Node := .uri "http://www.w3.org/2000/01/rdf-schema#comment"
def rdfsSubClassOfP : Node := .uri "http://www.w3.org/2000/01/rdf-schema#subClassOf"
def rdfsLabelP : Node := .uri "http://www.w3.org/2000/01/rdf-schema#label"

def ctFilenameP : Node := .uri (ctBase ++ "filename")
def ctFoldernameP : Node := .uri (ctBase ++ "foldername")

def lsLinkC : Node := .uri (lsBase ++ "Link")
def lsDirectedBinaryLinkC : Node := .uri (lsBase ++ "DirectedBinaryLink")
def lsDirected1toNLinkC : Node := .uri (lsBase ++ "Directed1toNLink")
def lsLinkElementC : Node := .uri (lsBase ++ "LinkElement")
def lsStringBasedIdentifierC : Node := .uri (lsBase ++ "StringBasedIdentifier")
def lsURIBasedIdentifierC : Node := .uri (lsBase ++ "URIBasedIdentifier")
def lsQueryBasedIdentifierC : Node := .uri (lsBase ++ "QueryBasedIdentifier")

def lsHasDocumentP : Node := .uri (lsBase ++ "hasDocument")
def lsHasFromLinkElementP : Node := .uri (lsBase ++ "hasFromLinkElement")
def lsHasToLinkElementP : Node := .uri (lsBase ++ "hasToLinkElement")
def lsHasIdentifierP : Node := .uri (lsBase ++ "hasIdentifier")
def lsIdentifierFieldP : Node := .uri (lsBase ++ "identifierField")
def lsIdentifierP : Node := .uri (lsBase ++ "identifier")
def lsUriP : Node := .uri (lsBase ++ "uri")
def lsQueryLanguageP : Node := .uri (lsBase ++ "queryLanguage")
def lsQueryExpressionP : Node := .uri (lsBase ++ "queryExpression")

def elsHasPartC : Node := .uri (elsBase ++ "HasPart")

attribute [simp] rdfTypeP rdfsCommentP rdfsSubClassOfP rdfsLabelP ctFilenameP
  ctFoldernameP lsLinkC lsDirectedBinaryLinkC lsDirected1toNLinkC lsLinkElementC
  lsStringBasedIdentifierC lsURIBasedIdentifierC lsQueryBasedIdentifierC
  lsHasDocumentP lsHasFromLinkElementP lsHasToLinkElementP lsHasIdentifierP
  lsIdentifierFieldP lsIdentifierP lsUriP lsQueryLanguageP lsQueryExpressionP
  elsHasPartC lsBase elsBase ctBase

/-- `generate_uri(base_uri, prefix)`: the source appends a fresh `uuid4`;
freshness is modelled by a threaded counter rendered into the URI. -/
def generate_uri (base_uri pre : String) (n : Nat) : Node :=
  .uri (base_uri ++ "/" ++ pre ++ toString n)

-- ---------------------------------------------------------------------------
-- Document resolution (rdf_utils.find_document_uri)
-- ---------------------------------------------------------------------------

/-- `find_document_uri(g, CT, path_value)`: normalize slashes, then return the
subject of the first triple whose predicate is `ct:filename` and whose object
equals the path; only if none matched, the same over `ct:foldername`. -/
def find_document_uri (g : Graph) (path_value : String) : Option Node :=
  let pv := slashify path_value
  match (g.find? (fun tr => tr.p == ctFilenameP && tr.o.str == pv)).map Triple.s with
  | some s => some s
  | none => (g.find? (fun tr => tr.p == ctFoldernameP && tr.o.str == pv)).map Triple.s

-- ---------------------------------------------------------------------------
-- Alias table and relation-type normalization (rdf_utils)
-- ---------------------------------------------------------------------------

/-- The fixed `ALIASES` dict mapping human CSV types to ISO local names. -/
def ALIASES : List (String × String) :=
  [("elaboration", "elaborates"),
   ("elaborate", "elaborates"),
   ("control", "controls"),
   ("aggregation", "haspart"),
   ("aggregate", "haspart"),
   ("membership", "hasmember"),
   ("member", "hasmember"),
   ("specialization", "specialises"),
   ("specialisation", "specialises"),
   ("replacement", "supersedes"),
   ("identity", "isidenticalto"),
   ("alternative", "isalternativeto"),
   ("conflict", "conflictswith")]

/-- Python `ALIASES.get(k, k)`. -/
def aliasGet (k : String) : String := (ALIASES.lookup k).getD k

/-- The successors of `cur` along declared `rdfs:subClassOf` edges whose
object is a URI reference, in graph order (the `g.objects` loop of
`_is_subclass_of` with its `isinstance(sup, URIRef)` filter). -/
def subOut (g : Graph) (cur : Node) : List Node :=
  g.filterMap (fun tr =>
    if tr.s == cur && tr.p == rdfsSubClassOfP && (match tr.o with | .uri _ => true | .lit _ => false)
    then some tr.o else none)

/-- One step of the `while stack:` loop of `_is_subclass_of`, as fuelled
structural recursion.  The Python stack pops from the end; the list here is
that stack reversed, so popping is taking the head and `append`ing the
successors becomes prepending them reversed. -/
def subclassFuel (g : Graph) (parent : Node) : Nat → List Node → List Node → Bool
  | 0, _, _ => false
  | _ + 1, [], _ => false
  | fuel + 1, cur :: rest, seen =>
    if cur = parent then true
    else if cur ∈ seen then subclassFuel g parent fuel rest seen
    else subclassFuel g parent fuel ((subOut g cur).reverse ++ rest) (cur :: seen)

/-- The distinct subjects of `rdfs:subClassOf` triples of `g`. -/
def subSubjects (g : Graph) : List Node :=
  (g.filterMap (fun tr => if tr.p = rdfsSubClassOfP then some tr.s else none)).dedup

/-- A fuel bound under which the worklist loop of `_is_subclass_of` runs to
completion: every iteration either pops the stack or marks a new
subclass-subject as seen. -/
def subclassBound (g : Graph) : Nat :=
  (subSubjects g).length * (g.length + 1) + 2

/-- `_is_subclass_of(g, child, parent)`: transitive `rdfs:subClassOf` check by
worklist traversal with a visited set. -/
def is_subclass_of (g : Graph) (child parent : Node) : Bool :=
  subclassFuel g parent (subclassBound g) [child] []

/-- `normalize_csv_type_to_iso(relation_type_raw, name_to_uri, g_els)`:
trim and case-fold, strip separators, apply aliases, look up the ontology
name index, and classify the structural kind by the subclass test. -/
def normalize_csv_type_to_iso (relation_type_raw : String)
    (name_to_uri : List (String × Node)) (g_els : Graph) :
    Option Node × String :=
  let t := pyLower (pyStrip relation_type_raw)
  if t = "" then (none, "Directed1toN")
  else
    let t_norm := removeChar '-' (removeChar '_' (removeChar ' ' t))
    let t_norm := aliasGet t_norm
    match name_to_uri.lookup t_norm with
    | none => (none, "Directed1toN")
    | some sem =>
      let structural :=
        if is_subclass_of g_els sem lsDirectedBinaryLinkC
        then "DirectedBinary" else "Directed1toN"
      (some sem, structural)

/-- The compact lookup key computed by `normalize_csv_type_to_iso` before the
index lookup (trim, case-fold, strip separators, alias substitution). -/
def compactKey (raw : String) : String :=
  let t := pyLower (pyStrip raw)
  aliasGet (removeChar '-' (removeChar '_' (removeChar ' ' t)))

-- ---------------------------------------------------------------------------
-- Link construction (rdf_utils.create_link_elements / attach_* /
-- create_directed_link)
-- ---------------------------------------------------------------------------

/-- Result of `create_link_elements`: updated graph and counter plus the two
link-element URIs. -/
structure CLEResult where
  graph : Graph
  cnt : Nat
  leFrom : Node
  leTo : Node
deriving Repr

/-- `create_link_elements(g, LS, base_uri, from_document_uri, to_document_uri)`:
two fresh `ls:LinkElement` individuals with `ls:hasDocument` each. -/
def create_link_elements (g : Graph) (cnt : Nat) (base_uri : String)
    (from_document_uri to_document_uri : Node) : CLEResult :=
  let le_from_uri := generate_uri base_uri "LinkElement_from" cnt
  let le_to_uri := generate_uri base_uri "LinkElement_to" (cnt + 1)
  ⟨g ++ [⟨le_from_uri, rdfTypeP, lsLinkElementC⟩,
         ⟨le_from_uri, lsHasDocumentP, from_document_uri⟩,
         ⟨le_to_uri, rdfTypeP, lsLinkElementC⟩,
         ⟨le_to_uri, lsHasDocumentP, to_document_uri⟩],
   cnt + 2, le_from_uri, le_to_uri⟩

/-- Result of an identifier attachment: updated graph and counter. -/
structure AIDResult where
  graph : Graph
  cnt : Nat
deriving Repr

/-- `attach_string_identifier`: a fresh `ls:StringBasedIdentifier` with field
and value, hung on the link element. -/
def attach_string_identifier (g : Graph) (cnt : Nat) (base_uri : String)
    (link_element_uri : Node) (value fld : String) : AIDResult :=
  let id_uri := generate_uri base_uri "StringBasedIdentifier" cnt
  ⟨g ++ [⟨id_uri, rdfTypeP, lsStringBasedIdentifierC⟩,
         ⟨id_uri, lsIdentifierFieldP, .lit fld⟩,
         ⟨id_uri, lsIdentifierP, .lit value⟩,
         ⟨link_element_uri, lsHasIdentifierP, id_uri⟩],
   cnt + 1⟩

/-- `attach_uri_identifier`: a fresh `ls:URIBasedIdentifier` with its uri. -/
def attach_uri_identifier (g : Graph) (cnt : Nat) (base_uri : String)
    (link_element_uri : Node) (uri_value : String) : AIDResult :=
  let id_uri := generate_uri base_uri "URIBasedIdentifier" cnt
  ⟨g ++ [⟨id_uri, rdfTypeP, lsURIBasedIdentifierC⟩,
         ⟨id_uri, lsUriP, .lit uri_value⟩,
         ⟨link_element_uri, lsHasIdentifierP, id_uri⟩],
   cnt + 1⟩

/-- `attach_query_identifier`: a fresh `ls:QueryBasedIdentifier` with language
and expression. -/
def attach_query_identifier (g : Graph) (cnt : Nat) (base_uri : String)
    (link_element_uri : Node) (query_expression query_language : String) : AIDResult :=
  let id_uri := generate_uri base_uri "QueryBasedIdentifier" cnt
  ⟨g ++ [⟨id_uri, rdfTypeP, lsQueryBasedIdentifierC⟩,
         ⟨id_uri, lsQueryLanguageP, .lit query_language⟩,
         ⟨id_uri, lsQueryExpressionP, .lit query_expression⟩,
         ⟨link_element_uri, lsHasIdentifierP, id_uri⟩],
   cnt + 1⟩

/-- The loosely-typed `to_identifier` dict argument of `create_directed_link`
(keys `kind`, `value`, `field`, `uri`, `expression`, `language`, any of which
may be missing). -/
structure ToIdentifier where
  kind : Option String
  value : Option String
  fld : Option String
  uriV : Option String
  expression : Option String
  language : Option String
deriving DecidableEq, Repr

/-- Step 5 of `create_directed_link`: the `if to_identifier:` kind dispatch,
attaching at most one identifier to the TO link element. -/
def attach_to_identifier (g : Graph) (cnt : Nat) (base_uri : String)
    (le_to_uri : Node) (to_identifier : Option ToIdentifier) : AIDResult :=
  match to_identifier with
  | none => ⟨g, cnt⟩
  | some t =>
    let kind := pyLower (pyOr t.kind "")
    if kind == "string" && truthyB t.value then
      attach_string_identifier g cnt base_uri le_to_uri (t.value.getD "") (pyOr t.fld "GUID")
    else if kind == "uri" && truthyB t.uriV then
      attach_uri_identifier g cnt base_uri le_to_uri (t.uriV.getD "")
    else if kind == "query" && truthyB t.expression then
      attach_query_identifier g cnt base_uri le_to_uri (t.expression.getD "")
        (pyOr t.language "XPath")
    else ⟨g, cnt⟩

/-- Result of `create_directed_link`: updated graph and counter plus the URIs
of the link and its two ends (the returned dict). -/
structure CDLResult where
  graph : Graph
  cnt : Nat
  link : Node
  leFrom : Node
  leTo : Node
deriving Repr

/-- `create_directed_link(...)`: one `ls:Link`, its structural type (Binary or
1toN by the `structural_kind` string), optional semantic type, the two link
elements with `ls:hasDocument`, optional TO-end identifier, optional
`rdfs:comment` note. -/
def create_directed_link (g : Graph) (cnt : Nat) (base_uri : String)
    (from_document_uri to_document_uri : Node)
    (sem_uri : Option Node) (structural_kind : String)
    (to_identifier : Option ToIdentifier) (note : Option String) : CDLResult :=
  let link_uri := generate_uri base_uri "Link" cnt
  let g1 := g ++ [⟨link_uri, rdfTypeP, lsLinkC⟩]
  let g2 :=
    if structural_kind = "DirectedBinary"
    then g1 ++ [⟨link_uri, rdfTypeP, lsDirectedBinaryLinkC⟩]
    else g1 ++ [⟨link_uri, rdfTypeP, lsDirected1toNLinkC⟩]
  let g3 :=
    match sem_uri with
    | some s => g2 ++ [⟨link_uri, rdfTypeP, s⟩]
    | none => g2
  let cle := create_link_elements g3 (cnt + 1) base_uri from_document_uri to_document_uri
  let g4 := cle.graph ++ [⟨link_uri, lsHasFromLinkElementP, cle.leFrom⟩,
                          ⟨link_uri, lsHasToLinkElementP, cle.leTo⟩]
  let aid := attach_to_identifier g4 cle.cnt base_uri cle.leTo to_identifier
  let g5 :=
    match note with
    | some n => aid.graph ++ [⟨link_uri, rdfsCommentP, .lit n⟩]
    | none => aid.graph
  ⟨g5, aid.cnt, link_uri, cle.leFrom, cle.leTo⟩

-- ---------------------------------------------------------------------------
-- Path collapsing (file_utils.remove_repeated_segments) and its POSIX
-- `os.path.normpath` / `os.path.join` dependencies
-- ---------------------------------------------------------------------------

/-- Python `sep.join(parts)` for the path separator, on char lists. -/
def joinWithSlash : List (List Char) → List Char
  | [] => []
  | [a] => a
  | a :: rest => a ++ '/' :: joinWithSlash rest

/-- Python `str.split(sep)` for a single-character separator, on char lists. -/
def splitChar (sep : Char) : List Char → List (List Char)
  | [] => [[]]
  | c :: t =>
    let r := splitChar sep t
    if c == sep then [] :: r
    else
      match r with
      | h :: t2 => (c :: h) :: t2
      | [] => [[c]]

/-- One component step of POSIX `normpath`: skip empty and dot components,
push ordinary components, and let `..` pop unless it must be kept.  `acc` is
the `new_comps` list reversed (head = most recent). -/
def npStep (absPath : Bool) (acc : List (List Char)) (comp : List Char) : List (List Char) :=
  if comp = [] ∨ comp = ['.'] then acc
  else if comp ≠ ['.', '.'] ∨ (absPath = false ∧ acc = []) ∨
          (acc ≠ [] ∧ acc.head? = some ['.', '.']) then comp :: acc
  else
    match acc with
    | _ :: t => t
    | [] => []

/-- POSIX `os.path.normpath`. -/
def normpath (path : String) : String :=
  if path = "" then "." else
  let l := path.toList
  let initial_slashes : Nat :=
    if startsWithChars ['/'] l then
      if startsWithChars ['/', '/'] l ∧ ¬ startsWithChars ['/', '/', '/'] l then 2 else 1
    else 0
  let comps := splitChar '/' l
  let new_comps := (comps.foldl (npStep (initial_slashes != 0)) []).reverse
  let joined := List.replicate initial_slashes '/' ++ joinWithSlash new_comps
  if joined = [] then "." else ⟨joined⟩

/-- One scan of the inner `for i in range(len(parts) - 1)` loop of
`remove_repeated_segments`: delete the element after the first adjacent
duplicate, or report no change. -/
def scanStep : List (List Char) → Option (List (List Char))
  | [] => none
  | [_] => none
  | a :: b :: t => if a = b then some (a :: t) else (scanStep (b :: t)).map (a :: ·)

/-- The `while changed:` loop of `remove_repeated_segments`; each successful
scan shortens the list, so the length is enough fuel. -/
def collapseLoop : Nat → List (List Char) → List (List Char)
  | 0, l => l
  | fuel + 1, l =>
    match scanStep l with
    | none => l
    | some l2 => collapseLoop fuel l2

/-- POSIX `os.path.join` of two components. -/
def joinTwo (path b : List Char) : List Char :=
  if b.head? = some '/' then b
  else if path = [] ∨ path.getLast? = some '/' then path ++ b
  else path ++ '/' :: b

/-- POSIX `os.path.join(*parts)` over a non-empty component list. -/
def ospJoin : List (List Char) → List Char
  | [] => []
  | p :: rest => rest.foldl joinTwo p

/-- `remove_repeated_segments(rel_path)`: normalize, split on the separator,
repeatedly collapse adjacent duplicate segments, and rejoin. -/
def remove_repeated_segments (rel_path : String) : String :=
  let norm := normpath rel_path
  let parts := splitChar '/' norm.toList
  ⟨ospJoin (collapseLoop parts.length parts)⟩

-- ---------------------------------------------------------------------------
-- CSV row processing (import_csv.process_csv_links, per-row loop)
-- ---------------------------------------------------------------------------

/-- A single ASCII apostrophe, as used in the unmapped-type note. -/
def sq : String := "\x27"

/-- One parsed CSV row: the required `fromPath`, `toPath`, `Type` columns and
the optional `GUID` column. -/
structure CsvRow where
  fromPath : String
  toPath : String
  typ : String
  guid : Option String
deriving DecidableEq, Repr

/-- The state threaded through the row loop: the links graph `g_links`, the
fresh-URI counter, and the warnings recorded so far. -/
structure RowState where
  gLinks : Graph
  cnt : Nat
  warnings : List String
deriving Repr

/-- The `to_identifier` dict built by the importer for a GUID value. -/
def mkGuidIdent (guid_value : String) : ToIdentifier :=
  ⟨some "string", some guid_value, some "GUID", none, none, none⟩

/-- The importer's per-row path normalization
(`row[...].strip().lstrip("\\/").replace("\\", "/")`). -/
def csvNormPath (s : String) : String := slashify (lstripSlashes (pyStrip s))

/-- One iteration of the `for row in reader:` loop of `process_csv_links`:
resolve both paths (skip with a warning if either fails), build the
user-declared link, and, when a GUID is present and an IFC document is
registered, the auxiliary `els:HasPart` link anchored on the first IFC
document. -/
def processRow (g_index : Graph) (name_to_uri : List (String × Node))
    (g_els : Graph) (ifc_uris : List Node) (base_uri : String)
    (st : RowState) (row : CsvRow) : RowState :=
  let from_path := csvNormPath row.fromPath
  let to_path := csvNormPath row.toPath
  let relation_type := pyStrip row.typ
  match find_document_uri g_index from_path, find_document_uri g_index to_path with
  | some from_uri, some to_uri =>
    let guid_value := pyStrip (pyOr row.guid "")
    let to_identifier := if guid_value = "" then none else some (mkGuidIdent guid_value)
    let ns := normalize_csv_type_to_iso relation_type name_to_uri g_els
    let note :=
      if ns.1 = none then some ("Unmapped CSV Type: " ++ sq ++ relation_type ++ sq)
      else none
    let r := create_directed_link st.gLinks st.cnt base_uri from_uri to_uri
      ns.1 ns.2 to_identifier note
    if guid_value = "" then ⟨r.graph, r.cnt, st.warnings⟩
    else
      match ifc_uris with
      | from_ifc :: _ =>
        let r2 := create_directed_link r.graph r.cnt base_uri from_ifc from_ifc
          (some elsHasPartC) "Directed1toN" (some (mkGuidIdent guid_value)) none
        ⟨r2.graph, r2.cnt, st.warnings⟩
      | [] => ⟨r.graph, r.cnt, st.warnings⟩
  | _, _ =>
    ⟨st.gLinks, st.cnt,
     st.warnings ++ ["Documents not found for: " ++ from_path ++ " or " ++ to_path]⟩

/-- The whole row loop over a batch of CSV rows. -/
def processRows (g_index : Graph) (name_to_uri : List (String × Node))
    (g_els : Graph) (ifc_uris : List Node) (base_uri : String)
    (st : RowState) (rows : List CsvRow) : RowState :=
  rows.foldl (processRow g_index name_to_uri g_els ifc_uris base_uri) st

-- ---------------------------------------------------------------------------
-- Specification-side helper definitions
-- ---------------------------------------------------------------------------

/-- Declared-subclass reachability: the reflexive-transitive closure of the
`rdfs:subClassOf` edges the worklist of `_is_subclass_of` follows. -/
inductive Reaches (g : Graph) : Node → Node → Prop
  | refl (c : Node) : Reaches g c c
  | step {a b c : Node} : b ∈ subOut g a → Reaches g b c → Reaches g a c

/-- Termination measure of the `_is_subclass_of` worklist loop: unseen
subclass-subjects weighted by the maximal successor count, plus the stack. -/
def subMeasure (g : Graph) (stack seen : List Node) : Nat :=
  ((subSubjects g).filter (fun x => decide (x ∉ seen))).length * (g.length + 1)
    + stack.length

/-- Does the `to_identifier` dict satisfy one of the three well-formedness
guards of `create_directed_link` (so that an identifier is attached)? -/
def identMatched : Option ToIdentifier → Bool
  | none => false
  | some t =>
    let kind := pyLower (pyOr t.kind "")
    (kind == "string" && truthyB t.value) || (kind == "uri" && truthyB t.uriV)
      || (kind == "query" && truthyB t.expression)

/-- One-pass collapse of adjacent duplicate segments (the declarative
counterpart of the scan-until-fixpoint loop). -/
def dedupAdj : List (List Char) → List (List Char)
  | [] => []
  | [a] => [a]
  | a :: b :: t => if a = b then dedupAdj (b :: t) else a :: dedupAdj (b :: t)

/-- No two adjacent elements are equal. -/
def noAdjDupB : List (List Char) → Bool
  | [] => true
  | [_] => true
  | a :: b :: t => a != b && noAdjDupB (b :: t)

/-- Invariant of the `normpath` accumulator on relative paths: every collected
component is nonempty, not `"."`, and separator-free, and all `".."`
components sit at the bottom of the stack. -/
def GoodAcc (acc : List (List Char)) : Prop :=
  (∀ x ∈ acc, x ≠ [] ∧ x ≠ ['.'] ∧ '/' ∉ x) ∧
  ∃ restRev k, acc = restRev ++ List.replicate k ['.', '.'] ∧ ['.', '.'] ∉ restRev

/-- Shape of a normalized relative segment list: good segments with all `".."`
segments leading. -/
def GoodSegs (l : List (List Char)) : Prop :=
  (∀ x ∈ l, x ≠ [] ∧ x ≠ ['.'] ∧ '/' ∉ x) ∧
  ∃ k rest, l = List.replicate k ['.', '.'] ++ rest ∧ ['.', '.'] ∉ rest

/-- The triples `attach_to_identifier` appends to the graph (its graph delta),
branch by branch. -/
def attachTail (cnt : Nat) (base_uri : String) (le : Node) :
    Option ToIdentifier → List Triple
  | none => []
  | some t =>
    let kind := pyLower (pyOr t.kind "")
    if kind == "string" && truthyB t.value then
      [⟨generate_uri base_uri "StringBasedIdentifier" cnt, rdfTypeP,
          lsStringBasedIdentifierC⟩,
       ⟨generate_uri base_uri "StringBasedIdentifier" cnt, lsIdentifierFieldP,
          .lit (pyOr t.fld "GUID")⟩,
       ⟨generate_uri base_uri "StringBasedIdentifier" cnt, lsIdentifierP,
          .lit (t.value.getD "")⟩,
       ⟨le, lsHasIdentifierP, generate_uri base_uri "StringBasedIdentifier" cnt⟩]
    else if kind == "uri" && truthyB t.uriV then
      [⟨generate_uri base_uri "URIBasedIdentifier" cnt, rdfTypeP, lsURIBasedIdentifierC⟩,
       ⟨generate_uri base_uri "URIBasedIdentifier" cnt, lsUriP, .lit (t.uriV.getD "")⟩,
       ⟨le, lsHasIdentifierP, generate_uri base_uri "URIBasedIdentifier" cnt⟩]
    else if kind == "query" && truthyB t.expression then
      [⟨generate_uri base_uri "QueryBasedIdentifier" cnt, rdfTypeP,
          lsQueryBasedIdentifierC⟩,
       ⟨generate_uri base_uri "QueryBasedIdentifier" cnt, lsQueryLanguageP,
          .lit (pyOr t.language "XPath")⟩,
       ⟨generate_uri base_uri "QueryBasedIdentifier" cnt, lsQueryExpressionP,
          .lit (t.expression.getD "")⟩,
       ⟨le, lsHasIdentifierP, generate_uri base_uri "QueryBasedIdentifier" cnt⟩]
    else []

/-- The graph delta of one `create_directed_link` call, in insertion order. -/
def cdlTail (cnt : Nat) (base_uri : String) (fd td : Node) (sem : Option Node)
    (sk : String) (tid : Option ToIdentifier) (note : Option String) : List Triple :=
  [⟨generate_uri base_uri "Link" cnt, rdfTypeP, lsLinkC⟩,
   ⟨generate_uri base_uri "Link" cnt, rdfTypeP,
      if sk = "DirectedBinary" then lsDirectedBinaryLinkC else lsDirected1toNLinkC⟩]
  ++ (match sem with
      | some s => [⟨generate_uri base_uri "Link" cnt, rdfTypeP, s⟩]
      | none => [])
  ++ [⟨generate_uri base_uri "LinkElement_from" (cnt + 1), rdfTypeP, lsLinkElementC⟩,
      ⟨generate_uri base_uri "LinkElement_from" (cnt + 1), lsHasDocumentP, fd⟩,
      ⟨generate_uri base_uri "LinkElement_to" (cnt + 2), rdfTypeP, lsLinkElementC⟩,
      ⟨generate_uri base_uri "LinkElement_to" (cnt + 2), lsHasDocumentP, td⟩,
      ⟨generate_uri base_uri "Link" cnt, lsHasFromLinkElementP,
        generate_uri base_uri "LinkElement_from" (cnt + 1)⟩,
      ⟨generate_uri base_uri "Link" cnt, lsHasToLinkElementP,
        generate_uri base_uri "LinkElement_to" (cnt + 2)⟩]
  ++ attachTail (cnt + 3) base_uri (generate_uri base_uri "LinkElement_to" (cnt + 2)) tid
  ++ (match note with
      | some n => [⟨generate_uri base_uri "Link" cnt, rdfsCommentP, .lit n⟩]
      | none => [])

-- ---------------------------------------------------------------------------
-- General list helpers
-- ---------------------------------------------------------------------------

/-- A filter misses a member that fails the predicate, so it is strictly
shorter. -/
lemma length_filter_lt_of_mem_not {α : Type} {r : α → Bool} {m : List α} {a : α}
    (ha : a ∈ m) (hr : r a = false) : (m.filter r).length < m.length := by
  have hle := List.length_filter_le r m
  rcases Nat.lt_or_ge (m.filter r).length m.length with h | h
  · exact h
  · exfalso
    have heq : (m.filter r).length = m.length := Nat.le_antisymm hle h
    have := List.filter_length_eq_length.mp heq a ha
    simp [hr] at this

-- ---------------------------------------------------------------------------
-- Subclass traversal: soundness and completeness of the worklist loop
-- ---------------------------------------------------------------------------

/-- A declared subclass triple with a URI object yields a traversal edge. -/
lemma mem_subOut_intro {g : Graph} {a : Node} {s : String}
    (h : (⟨a, rdfsSubClassOfP, .uri s⟩ : Triple) ∈ g) : Node.uri s ∈ subOut g a := by
  unfold subOut
  rw [List.mem_filterMap]
  exact ⟨⟨a, rdfsSubClassOfP, .uri s⟩, h, by simp⟩

/-- Nodes that are not subjects of any subclass triple have no successors. -/
lemma subOut_eq_nil_of_not_mem {g : Graph} {c : Node} (hc : c ∉ subSubjects g) :
    subOut g c = [] := by
  rcases h : subOut g c with _ | ⟨b, l⟩
  · rfl
  · exfalso
    apply hc
    have hb : b ∈ subOut g c := h ▸ List.mem_cons_self b l
    rw [subOut, List.mem_filterMap] at hb
    obtain ⟨tr, htr, hif⟩ := hb
    by_cases hcond : (tr.s == c && tr.p == rdfsSubClassOfP
        && (match tr.o with | .uri _ => true | .lit _ => false)) = true
    · rw [Bool.and_eq_true, Bool.and_eq_true] at hcond
      obtain ⟨⟨hs, hp⟩, _⟩ := hcond
      unfold subSubjects
      rw [List.mem_dedup, List.mem_filterMap]
      refine ⟨tr, htr, ?_⟩
      rw [if_pos (beq_iff_eq.mp hp), beq_iff_eq.mp hs]
    · rw [if_neg hcond] at hif
      cases hif

/-- A visited set closed under traversal edges absorbs reachability. -/
lemma reaches_mem_closed {g : Graph} {seen : List Node}
    (hcl : ∀ z ∈ seen, ∀ y ∈ subOut g z, y ∈ seen) :
    ∀ {x p : Node}, Reaches g x p → x ∈ seen → p ∈ seen := by
  intro x p h
  induction h with
  | refl c => exact id
  | step hb _ ih => exact fun ha => ih (hcl _ ha _ hb)

/-- If the visited set is closed under traversal edges and misses `parent`,
no node reaching `parent` lies in it. -/
lemma reaches_not_mem_closed {g : Graph} {parent : Node} {seen : List Node}
    (hcl : ∀ z ∈ seen, ∀ y ∈ subOut g z, y ∈ seen) (hp : parent ∉ seen) :
    ∀ x, Reaches g x parent → x ∉ seen :=
  fun _ hx hmem => hp (reaches_mem_closed hcl hx hmem)

/-- Soundness: if the worklist loop answers `true`, some stack node reaches
`parent` along declared subclass edges. -/
lemma subclassFuel_sound {g : Graph} {parent : Node} :
    ∀ (fuel : Nat) (stack seen : List Node),
      subclassFuel g parent fuel stack seen = true →
      ∃ x ∈ stack, Reaches g x parent := by
  intro fuel
  induction fuel with
  | zero => intro stack seen h; simp [subclassFuel] at h
  | succ n ih =>
    intro stack seen h
    match stack with
    | [] => simp [subclassFuel] at h
    | cur :: rest =>
      rw [subclassFuel] at h
      by_cases hc : cur = parent
      · exact ⟨cur, List.mem_cons_self _ _, hc ▸ Reaches.refl cur⟩
      · rw [if_neg hc] at h
        by_cases hs : cur ∈ seen
        · rw [if_pos hs] at h
          obtain ⟨x, hx, hr⟩ := ih _ _ h
          exact ⟨x, List.mem_cons_of_mem _ hx, hr⟩
        · rw [if_neg hs] at h
          obtain ⟨x, hx, hr⟩ := ih _ _ h
          rcases List.mem_append.mp hx with hx1 | hx2
          · exact ⟨cur, List.mem_cons_self _ _,
              Reaches.step (List.mem_reverse.mp hx1) hr⟩
          · exact ⟨x, List.mem_cons_of_mem _ hx2, hr⟩

/-- Pushing an element onto the stack raises the measure by exactly one. -/
lemma subMeasure_cons {g : Graph} (stack seen : List Node) (cur : Node) :
    subMeasure g stack seen + 1 = subMeasure g (cur :: stack) seen := by
  unfold subMeasure
  rw [List.length_cons]
  exact Nat.add_assoc _ _ 1

/-- Expanding an unvisited node strictly decreases the measure. -/
lemma subMeasure_step_lt (g : Graph) (rest : List Node) {seen : List Node}
    {cur : Node} (hs : cur ∉ seen) :
    subMeasure g ((subOut g cur).reverse ++ rest) (cur :: seen)
      < subMeasure g (cur :: rest) seen := by
  by_cases hmem : cur ∈ subSubjects g
  · have hflt : ((subSubjects g).filter (fun x => decide (x ∉ cur :: seen))).length
        < ((subSubjects g).filter (fun x => decide (x ∉ seen))).length := by
      have hq : ∀ a ∈ subSubjects g,
          (decide (a ∉ cur :: seen)) = ((fun x => decide ¬(x = cur)) a
            && (fun x => decide (x ∉ seen)) a) := by
        intro a _
        by_cases h1 : a = cur <;> by_cases h2 : a ∈ seen <;> simp [h1, h2]
      rw [List.filter_congr hq, ← List.filter_filter]
      exact length_filter_lt_of_mem_not
        (List.mem_filter.mpr ⟨hmem, by simp [hs]⟩) (by simp)
    unfold subMeasure
    rw [List.length_append, List.length_reverse, List.length_cons]
    have hlen : (subOut g cur).length ≤ g.length := List.length_filterMap_le _ _
    have h1 : ((subSubjects g).filter (fun x => decide (x ∉ cur :: seen))).length + 1
        ≤ ((subSubjects g).filter (fun x => decide (x ∉ seen))).length := hflt
    have h2 := Nat.mul_le_mul_right (g.length + 1) h1
    rw [Nat.add_mul, Nat.one_mul] at h2
    linarith
  · have hout : subOut g cur = [] := subOut_eq_nil_of_not_mem hmem
    have hfeq : (subSubjects g).filter (fun x => decide (x ∉ cur :: seen))
        = (subSubjects g).filter (fun x => decide (x ∉ seen)) := by
      apply List.filter_congr
      intro a ha
      have hne : ¬ a = cur := fun h => hmem (h ▸ ha)
      by_cases h2 : a ∈ seen <;> simp [hne, h2]
    unfold subMeasure
    rw [hout, hfeq, List.length_cons]
    simp only [List.reverse_nil, List.nil_append]
    exact Nat.add_lt_add_left (Nat.lt_succ_self _) _

/-- Completeness: when a fully-fuelled run answers `false` from a state whose
visited set is closed into the state and misses `parent`, no node reaching
`parent` is on the stack or visited. -/
lemma subclassFuel_complete {g : Graph} {parent : Node} :
    ∀ (fuel : Nat) (stack seen : List Node),
      subMeasure g stack seen < fuel →
      (∀ z ∈ seen, ∀ y ∈ subOut g z, y ∈ seen ∨ y ∈ stack) →
      parent ∉ seen →
      subclassFuel g parent fuel stack seen = false →
      ∀ x, Reaches g x parent → x ∉ stack ∧ x ∉ seen := by
  intro fuel
  induction fuel with
  | zero => intro stack seen hm; exact absurd hm (Nat.not_lt_zero _)
  | succ n ih =>
    intro stack seen hm hcl hp hf x hx
    match stack with
    | [] =>
      refine ⟨List.not_mem_nil x, ?_⟩
      exact reaches_not_mem_closed
        (fun z hz y hy => (hcl z hz y hy).resolve_right (List.not_mem_nil y)) hp x hx
    | cur :: rest =>
      rw [subclassFuel] at hf
      by_cases hc : cur = parent
      · rw [if_pos hc] at hf; exact absurd hf (by simp)
      · rw [if_neg hc] at hf
        by_cases hs : cur ∈ seen
        · rw [if_pos hs] at hf
          have hm' : subMeasure g rest seen < n := by
            have := subMeasure_cons (g := g) rest seen cur
            omega
          have hcl' : ∀ z ∈ seen, ∀ y ∈ subOut g z, y ∈ seen ∨ y ∈ rest := by
            intro z hz y hy
            rcases hcl z hz y hy with h | h
            · exact Or.inl h
            · rcases List.mem_cons.mp h with h1 | h2
              · exact Or.inl (h1 ▸ hs)
              · exact Or.inr h2
          obtain ⟨hx1, hx2⟩ := ih rest seen hm' hcl' hp hf x hx
          refine ⟨fun hmem => ?_, hx2⟩
          rcases List.mem_cons.mp hmem with h1 | h2
          · exact hx2 (h1 ▸ hs)
          · exact hx1 h2
        · rw [if_neg hs] at hf
          have hm' : subMeasure g ((subOut g cur).reverse ++ rest) (cur :: seen) < n := by
            have := subMeasure_step_lt g rest hs
            omega
          have hcl' : ∀ z ∈ cur :: seen, ∀ y ∈ subOut g z,
              y ∈ cur :: seen ∨ y ∈ (subOut g cur).reverse ++ rest := by
            intro z hz y hy
            rcases List.mem_cons.mp hz with h1 | h2
            · exact Or.inr (List.mem_append.mpr (Or.inl (List.mem_reverse.mpr (h1 ▸ hy))))
            · rcases hcl z h2 y hy with h | h
              · exact Or.inl (List.mem_cons_of_mem _ h)
              · rcases List.mem_cons.mp h with h3 | h4
                · exact Or.inl (h3 ▸ List.mem_cons_self _ _)
                · exact Or.inr (List.mem_append.mpr (Or.inr h4))
          have hp' : parent ∉ cur :: seen := by
            intro hmem
            rcases List.mem_cons.mp hmem with h1 | h2
            · exact hc h1.symm
            · exact hp h2
          obtain ⟨hx1, hx2⟩ := ih _ _ hm' hcl' hp' hf x hx
          have hxc : x ≠ cur := fun h => hx2 (h ▸ List.mem_cons_self _ _)
          refine ⟨fun hmem => ?_, fun hmem => hx2 (List.mem_cons_of_mem _ hmem)⟩
          rcases List.mem_cons.mp hmem with h1 | h2
          · exact hxc h1
          · exact hx1 (List.mem_append.mpr (Or.inr h2))

/-- The subclass test accepts its own start node at once. -/
lemma is_subclass_of_refl (g : Graph) (c : Node) : is_subclass_of g c c = true := by
  show subclassFuel g c ((subSubjects g).length * (g.length + 1) + 1 + 1) [c] [] = true
  rw [subclassFuel]
  simp

/-- Two chained declared subclass edges put the start under the grandparent. -/
lemma is_subclass_of_two_step {g : Graph} {c1 : Node} {s2 sb : String}
    (h1 : (⟨c1, rdfsSubClassOfP, .uri s2⟩ : Triple) ∈ g)
    (h2 : (⟨.uri s2, rdfsSubClassOfP, .uri sb⟩ : Triple) ∈ g) :
    is_subclass_of g c1 (.uri sb) = true := by
  by_contra hfalse
  rw [Bool.not_eq_true] at hfalse
  have hreach : Reaches g c1 (.uri sb) :=
    Reaches.step (mem_subOut_intro h1)
      (Reaches.step (mem_subOut_intro h2) (Reaches.refl _))
  have hM : subMeasure g [c1] [] < subclassBound g := by
    unfold subMeasure subclassBound
    rw [show (subSubjects g).filter (fun x => decide (x ∉ ([] : List Node)))
        = subSubjects g by simp]
    rw [show ([c1] : List Node).length = 1 from rfl]
    exact Nat.add_lt_add_left (by omega) _
  have h := subclassFuel_complete (subclassBound g) [c1] [] hM (by simp) (by simp)
    hfalse c1 hreach
  exact h.1 (List.mem_singleton_self c1)

/-- A `true` answer of the subclass test is witnessed by edge reachability. -/
lemma is_subclass_of_reaches {g : Graph} {c p : Node}
    (h : is_subclass_of g c p = true) : Reaches g c p := by
  obtain ⟨x, hx, hr⟩ := subclassFuel_sound _ _ _ h
  rw [List.mem_singleton] at hx
  exact hx ▸ hr

-- ---------------------------------------------------------------------------
-- Relation-normalizer unfolding lemmas
-- ---------------------------------------------------------------------------

/-- When the compact key hits the index, normalization returns the concept and
the shape chosen by the subclass test. -/
lemma normalize_of_lookup {t : String} {idx : List (String × Node)} {g : Graph}
    {c : Node} (ht : ¬ pyLower (pyStrip t) = "")
    (hl : idx.lookup (compactKey t) = some c) :
    normalize_csv_type_to_iso t idx g =
      (some c, if is_subclass_of g c lsDirectedBinaryLinkC
               then "DirectedBinary" else "Directed1toN") := by
  have hl' : idx.lookup (aliasGet (removeChar '-' (removeChar '_' (removeChar ' '
      (pyLower (pyStrip t)))))) = some c := hl
  simp only [normalize_csv_type_to_iso]
  rw [if_neg ht, hl']

/-- When the trimmed text is empty or the compact key misses the index,
normalization returns the unresolved marker and the 1-to-N default. -/
lemma normalize_unresolved {t : String} {idx : List (String × Node)} {g : Graph}
    (h : pyLower (pyStrip t) = "" ∨ idx.lookup (compactKey t) = none) :
    normalize_csv_type_to_iso t idx g = (none, "Directed1toN") := by
  simp only [normalize_csv_type_to_iso]
  by_cases ht : pyLower (pyStrip t) = ""
  · rw [if_pos ht]
  · rw [if_neg ht]
    have hl : idx.lookup (aliasGet (removeChar '-' (removeChar '_' (removeChar ' '
        (pyLower (pyStrip t)))))) = none := h.resolve_left ht
    rw [hl]

-- ---------------------------------------------------------------------------
-- Link-builder delta lemmas
-- ---------------------------------------------------------------------------

/-- `attach_to_identifier` only appends: its graph is the input graph plus
`attachTail`. -/
lemma attach_graph (g : Graph) (cnt : Nat) (base_uri : String) (le : Node)
    (tid : Option ToIdentifier) :
    (attach_to_identifier g cnt base_uri le tid).graph
      = g ++ attachTail cnt base_uri le tid := by
  cases tid with
  | none => simp [attach_to_identifier, attachTail]
  | some t =>
    simp only [attach_to_identifier, attachTail]
    by_cases h1 : (pyLower (pyOr t.kind "") == "string" && truthyB t.value) = true
    · rw [if_pos h1, if_pos h1]; rfl
    · rw [if_neg h1, if_neg h1]
      by_cases h2 : (pyLower (pyOr t.kind "") == "uri" && truthyB t.uriV) = true
      · rw [if_pos h2, if_pos h2]; rfl
      · rw [if_neg h2, if_neg h2]
        by_cases h3 : (pyLower (pyOr t.kind "") == "query" && truthyB t.expression) = true
        · rw [if_pos h3, if_pos h3]; rfl
        · rw [if_neg h3, if_neg h3]; simp

/-- Identifier triples hang only on the supplied link element. -/
lemma attachTail_to {cnt : Nat} {base_uri : String} {le : Node}
    {tid : Option ToIdentifier} :
    ∀ tr ∈ attachTail cnt base_uri le tid, tr.p = lsHasIdentifierP → tr.s = le := by
  cases tid with
  | none => simp [attachTail]
  | some t =>
    intro tr htr
    simp only [attachTail] at htr
    split at htr <;> [skip; split at htr] <;> [skip; skip; split at htr] <;>
      simp only [List.mem_cons, List.not_mem_nil, or_false] at htr <;>
      first
        | (rcases htr with rfl | rfl | rfl | rfl <;>
            simp [rdfTypeP, lsHasIdentifierP, lsIdentifierFieldP, lsIdentifierP,
              lsUriP, lsQueryLanguageP, lsQueryExpressionP, lsBase])
        | (rcases htr with rfl | rfl | rfl <;>
            simp [rdfTypeP, lsHasIdentifierP, lsUriP, lsBase])
        | exact absurd htr (by simp)

/-- Every appended identifier triple uses an identifier-specific predicate (or
types an identifier node). -/
lemma attachTail_preds {cnt : Nat} {base_uri : String} {le : Node}
    {tid : Option ToIdentifier} :
    ∀ tr ∈ attachTail cnt base_uri le tid,
      (tr.p = rdfTypeP ∧ (tr.o = lsStringBasedIdentifierC ∨ tr.o = lsURIBasedIdentifierC
        ∨ tr.o = lsQueryBasedIdentifierC))
      ∨ tr.p = lsIdentifierFieldP ∨ tr.p = lsIdentifierP ∨ tr.p = lsHasIdentifierP
      ∨ tr.p = lsUriP ∨ tr.p = lsQueryLanguageP ∨ tr.p = lsQueryExpressionP := by
  cases tid with
  | none => simp [attachTail]
  | some t =>
    intro tr htr
    simp only [attachTail] at htr
    split at htr <;> [skip; split at htr] <;> [skip; skip; split at htr] <;>
      simp only [List.mem_cons, List.not_mem_nil, or_false] at htr <;>
      first
        | (rcases htr with rfl | rfl | rfl | rfl <;> simp)
        | (rcases htr with rfl | rfl | rfl <;> simp)
        | exact absurd htr (by simp)

/-- When no kind guard matches, nothing is appended. -/
lemma attachTail_nil (cnt : Nat) (base_uri : String) (le : Node)
    {tid : Option ToIdentifier} (hm : identMatched tid = false) :
    attachTail cnt base_uri le tid = [] := by
  cases tid with
  | none => simp [attachTail]
  | some t =>
    simp only [identMatched, Bool.or_eq_false_iff] at hm
    simp only [attachTail]
    rw [if_neg (by simp [hm.1.1]), if_neg (by simp [hm.1.2]), if_neg (by simp [hm.2])]

/-- The string-identifier branch appends exactly its four triples. -/
lemma attachTail_str (cnt : Nat) (base_uri : String) (le : Node) {t : ToIdentifier}
    (hk : pyLower (pyOr t.kind "") = "string") (hv : truthyB t.value = true) :
    attachTail cnt base_uri le (some t)
      = [⟨generate_uri base_uri "StringBasedIdentifier" cnt, rdfTypeP,
            lsStringBasedIdentifierC⟩,
         ⟨generate_uri base_uri "StringBasedIdentifier" cnt, lsIdentifierFieldP,
            .lit (pyOr t.fld "GUID")⟩,
         ⟨generate_uri base_uri "StringBasedIdentifier" cnt, lsIdentifierP,
            .lit (t.value.getD "")⟩,
         ⟨le, lsHasIdentifierP, generate_uri base_uri "StringBasedIdentifier" cnt⟩] := by
  simp only [attachTail]
  rw [if_pos (by simp [hk, hv])]

-- ---------------------------------------------------------------------------
-- The full delta of create_directed_link
-- ---------------------------------------------------------------------------

/-- The link URI returned by `create_directed_link`. -/
lemma cdl_link (g : Graph) (cnt : Nat) (base_uri : String) (fd td : Node)
    (sem : Option Node) (sk : String) (tid : Option ToIdentifier) (note : Option String) :
    (create_directed_link g cnt base_uri fd td sem sk tid note).link
      = generate_uri base_uri "Link" cnt := rfl

/-- The FROM link-element URI returned by `create_directed_link`. -/
lemma cdl_leFrom (g : Graph) (cnt : Nat) (base_uri : String) (fd td : Node)
    (sem : Option Node) (sk : String) (tid : Option ToIdentifier) (note : Option String) :
    (create_directed_link g cnt base_uri fd td sem sk tid note).leFrom
      = generate_uri base_uri "LinkElement_from" (cnt + 1) := rfl

/-- The TO link-element URI returned by `create_directed_link`. -/
lemma cdl_leTo (g : Graph) (cnt : Nat) (base_uri : String) (fd td : Node)
    (sem : Option Node) (sk : String) (tid : Option ToIdentifier) (note : Option String) :
    (create_directed_link g cnt base_uri fd td sem sk tid note).leTo
      = generate_uri base_uri "LinkElement_to" (cnt + 2) := rfl

/-- `create_directed_link` only appends: its graph is the input graph plus
`cdlTail`. -/
lemma cdl_graph (g : Graph) (cnt : Nat) (base_uri : String) (fd td : Node)
    (sem : Option Node) (sk : String) (tid : Option ToIdentifier) (note : Option String) :
    (create_directed_link g cnt base_uri fd td sem sk tid note).graph
      = g ++ cdlTail cnt base_uri fd td sem sk tid note := by
  simp only [create_directed_link, create_link_elements, attach_graph, cdlTail]
  by_cases hsk : sk = "DirectedBinary" <;>
    cases sem <;> cases note <;>
      simp [hsk, List.append_assoc, Nat.add_assoc]

-- ---------------------------------------------------------------------------
-- Pointwise facts about the link-builder delta
-- ---------------------------------------------------------------------------

/-- No identifier triple carries a predicate outside the identifier set. -/
lemma attachTail_filter_p_nil {cnt : Nat} {b : String} {le : Node}
    {tid : Option ToIdentifier} {X : Node}
    (h1 : ¬ rdfTypeP = X) (h2 : ¬ lsIdentifierFieldP = X) (h3 : ¬ lsIdentifierP = X)
    (h4 : ¬ lsHasIdentifierP = X) (h5 : ¬ lsUriP = X) (h6 : ¬ lsQueryLanguageP = X)
    (h7 : ¬ lsQueryExpressionP = X) :
    (attachTail cnt b le tid).filter (fun tr => tr.p == X) = [] := by
  rw [List.filter_eq_nil_iff]
  intro tr htr
  rcases attachTail_preds tr htr with ⟨hp, _⟩ | hp | hp | hp | hp | hp | hp <;>
    rw [hp] <;> simp only [beq_eq_false_iff_ne, ne_eq, Bool.not_eq_true] <;>
    assumption

/-- No identifier triple types anything as `ls:Link`. -/
lemma attachTail_filter_typeLink_nil {cnt : Nat} {b : String} {le : Node}
    {tid : Option ToIdentifier} :
    (attachTail cnt b le tid).filter
      (fun tr => tr.p == rdfTypeP && tr.o == lsLinkC) = [] := by
  rw [List.filter_eq_nil_iff]
  intro tr htr
  rcases attachTail_preds tr htr with ⟨hp, ho⟩ | hp | hp | hp | hp | hp | hp
  · rcases ho with ho | ho | ho <;> rw [ho] <;> simp
  all_goals rw [hp]; simp

/-- The single FROM-end triple of the delta. -/
lemma cdlTail_filter_hasFrom (cnt : Nat) (b : String) (fd td : Node)
    (sem : Option Node) (sk : String) (tid : Option ToIdentifier) (note : Option String) :
    (cdlTail cnt b fd td sem sk tid note).filter
        (fun tr => tr.p == lsHasFromLinkElementP)
      = [⟨generate_uri b "Link" cnt, lsHasFromLinkElementP,
          generate_uri b "LinkElement_from" (cnt + 1)⟩] := by
  have hat : (attachTail (cnt + 3) b (generate_uri b "LinkElement_to" (cnt + 2)) tid).filter
      (fun tr => tr.p == lsHasFromLinkElementP) = [] :=
    attachTail_filter_p_nil (by decide) (by decide) (by decide) (by decide)
      (by decide) (by decide) (by decide)
  cases sem <;> cases note <;>
    · simp only [cdlTail, List.append_assoc, List.filter_append]
      rw [hat]
      simp

/-- The single TO-end triple of the delta. -/
lemma cdlTail_filter_hasTo (cnt : Nat) (b : String) (fd td : Node)
    (sem : Option Node) (sk : String) (tid : Option ToIdentifier) (note : Option String) :
    (cdlTail cnt b fd td sem sk tid note).filter
        (fun tr => tr.p == lsHasToLinkElementP)
      = [⟨generate_uri b "Link" cnt, lsHasToLinkElementP,
          generate_uri b "LinkElement_to" (cnt + 2)⟩] := by
  have hat : (attachTail (cnt + 3) b (generate_uri b "LinkElement_to" (cnt + 2)) tid).filter
      (fun tr => tr.p == lsHasToLinkElementP) = [] :=
    attachTail_filter_p_nil (by decide) (by decide) (by decide) (by decide)
      (by decide) (by decide) (by decide)
  cases sem <;> cases note <;>
    · simp only [cdlTail, List.append_assoc, List.filter_append]
      rw [hat]
      simp

/-- Exactly two `ls:hasDocument` triples: FROM wraps `fd`, TO wraps `td`. -/
lemma cdlTail_filter_hasDoc (cnt : Nat) (b : String) (fd td : Node)
    (sem : Option Node) (sk : String) (tid : Option ToIdentifier) (note : Option String) :
    (cdlTail cnt b fd td sem sk tid note).filter (fun tr => tr.p == lsHasDocumentP)
      = [⟨generate_uri b "LinkElement_from" (cnt + 1), lsHasDocumentP, fd⟩,
         ⟨generate_uri b "LinkElement_to" (cnt + 2), lsHasDocumentP, td⟩] := by
  have hat : (attachTail (cnt + 3) b (generate_uri b "LinkElement_to" (cnt + 2)) tid).filter
      (fun tr => tr.p == lsHasDocumentP) = [] :=
    attachTail_filter_p_nil (by decide) (by decide) (by decide) (by decide)
      (by decide) (by decide) (by decide)
  cases sem <;> cases note <;>
    · simp only [cdlTail, List.append_assoc, List.filter_append]
      rw [hat]
      simp

/-- The delta types the link as `ls:Link`. -/
lemma cdlTail_mem_linkType (cnt : Nat) (b : String) (fd td : Node)
    (sem : Option Node) (sk : String) (tid : Option ToIdentifier) (note : Option String) :
    (⟨generate_uri b "Link" cnt, rdfTypeP, lsLinkC⟩ : Triple)
      ∈ cdlTail cnt b fd td sem sk tid note := by
  simp [cdlTail]

/-- The delta tags the link with the structural class chosen by
`structural_kind`. -/
lemma cdlTail_mem_structural (cnt : Nat) (b : String) (fd td : Node)
    (sem : Option Node) (sk : String) (tid : Option ToIdentifier) (note : Option String) :
    (⟨generate_uri b "Link" cnt, rdfTypeP,
        if sk = "DirectedBinary" then lsDirectedBinaryLinkC else lsDirected1toNLinkC⟩ : Triple)
      ∈ cdlTail cnt b fd td sem sk tid note := by
  simp [cdlTail]

/-- The delta types both ends as `ls:LinkElement`. -/
lemma cdlTail_mem_leTypes (cnt : Nat) (b : String) (fd td : Node)
    (sem : Option Node) (sk : String) (tid : Option ToIdentifier) (note : Option String) :
    (⟨generate_uri b "LinkElement_from" (cnt + 1), rdfTypeP, lsLinkElementC⟩ : Triple)
        ∈ cdlTail cnt b fd td sem sk tid note
      ∧ (⟨generate_uri b "LinkElement_to" (cnt + 2), rdfTypeP, lsLinkElementC⟩ : Triple)
        ∈ cdlTail cnt b fd td sem sk tid note := by
  constructor <;> simp [cdlTail]

/-- A resolved semantic concept is added as an extra classification. -/
lemma cdlTail_mem_sem (cnt : Nat) (b : String) (fd td : Node) {sem : Option Node}
    (sk : String) (tid : Option ToIdentifier) (note : Option String) {s : Node}
    (h : sem = some s) :
    (⟨generate_uri b "Link" cnt, rdfTypeP, s⟩ : Triple)
      ∈ cdlTail cnt b fd td sem sk tid note := by
  subst h
  simp [cdlTail]

/-- A supplied note is added as an `rdfs:comment` on the link. -/
lemma cdlTail_mem_note (cnt : Nat) (b : String) (fd td : Node) (sem : Option Node)
    (sk : String) (tid : Option ToIdentifier) {note : Option String} {n : String}
    (h : note = some n) :
    (⟨generate_uri b "Link" cnt, rdfsCommentP, .lit n⟩ : Triple)
      ∈ cdlTail cnt b fd td sem sk tid note := by
  subst h
  simp [cdlTail]

/-- Identifier triples in the delta hang on the TO end only. -/
lemma cdlTail_hasId_to (cnt : Nat) (b : String) (fd td : Node) (sem : Option Node)
    (sk : String) (tid : Option ToIdentifier) (note : Option String) :
    ∀ tr ∈ cdlTail cnt b fd td sem sk tid note,
      tr.p = lsHasIdentifierP → tr.s = generate_uri b "LinkElement_to" (cnt + 2) := by
  intro tr htr
  unfold cdlTail at htr
  simp only [List.mem_append] at htr
  rcases htr with (((h2 | hsem) | hsix) | hat) | hnote
  · simp only [List.mem_cons, List.not_mem_nil, or_false] at h2
    rcases h2 with rfl | rfl <;> simp
  · cases sem with
    | none => cases hsem
    | some s => rw [List.mem_singleton] at hsem; subst hsem; simp
  · simp only [List.mem_cons, List.not_mem_nil, or_false] at hsix
    rcases hsix with rfl | rfl | rfl | rfl | rfl | rfl <;> simp
  · exact attachTail_to tr hat
  · cases note with
    | none => cases hnote
    | some n => rw [List.mem_singleton] at hnote; subst hnote; simp

/-- With no well-formed identifier payload, the delta carries no identifier
payload triple at all. -/
lemma cdlTail_unmatched_idfilter (cnt : Nat) (b : String) (fd td : Node)
    (sem : Option Node) (sk : String) {tid : Option ToIdentifier} (note : Option String)
    (hm : identMatched tid = false) :
    (cdlTail cnt b fd td sem sk tid note).filter
        (fun tr => tr.p == lsHasIdentifierP || tr.p == lsIdentifierFieldP
          || tr.p == lsIdentifierP || tr.p == lsUriP || tr.p == lsQueryLanguageP
          || tr.p == lsQueryExpressionP) = [] := by
  have hat := attachTail_nil (cnt + 3) b (generate_uri b "LinkElement_to" (cnt + 2)) hm
  unfold cdlTail
  rw [hat]
  cases sem <;> cases note <;> simp

/-- With no well-formed identifier payload, the only typed entities of the
delta are the link and its two ends. -/
lemma cdlTail_unmatched_typed (cnt : Nat) (b : String) (fd td : Node)
    (sem : Option Node) (sk : String) {tid : Option ToIdentifier} (note : Option String)
    (hm : identMatched tid = false) :
    ∀ tr ∈ cdlTail cnt b fd td sem sk tid note, tr.p = rdfTypeP →
      tr.s = generate_uri b "Link" cnt
        ∨ tr.s = generate_uri b "LinkElement_from" (cnt + 1)
        ∨ tr.s = generate_uri b "LinkElement_to" (cnt + 2) := by
  have hat := attachTail_nil (cnt + 3) b (generate_uri b "LinkElement_to" (cnt + 2)) hm
  intro tr htr
  unfold cdlTail at htr
  rw [hat] at htr
  simp only [List.append_nil, List.mem_append] at htr
  rcases htr with ((h2 | hsem) | hsix) | hnote
  · simp only [List.mem_cons, List.not_mem_nil, or_false] at h2
    rcases h2 with rfl | rfl <;> simp
  · cases sem with
    | none => cases hsem
    | some s => rw [List.mem_singleton] at hsem; subst hsem; simp
  · simp only [List.mem_cons, List.not_mem_nil, or_false] at hsix
    rcases hsix with rfl | rfl | rfl | rfl | rfl | rfl <;> simp
  · cases note with
    | none => cases hnote
    | some n => rw [List.mem_singleton] at hnote; subst hnote; simp

/-- Unless the semantic concept is the `ls:Link` class itself, the delta types
exactly one entity as `ls:Link` — the created link. -/
lemma cdlTail_filter_linkCount (cnt : Nat) (b : String) (fd td : Node)
    {sem : Option Node} (sk : String) (tid : Option ToIdentifier) (note : Option String)
    (hsem : ¬ sem = some lsLinkC) :
    (cdlTail cnt b fd td sem sk tid note).filter
        (fun tr => tr.p == rdfTypeP && tr.o == lsLinkC)
      = [⟨generate_uri b "Link" cnt, rdfTypeP, lsLinkC⟩] := by
  have hat : (attachTail (cnt + 3) b (generate_uri b "LinkElement_to" (cnt + 2)) tid).filter
      (fun tr => tr.p == rdfTypeP && tr.o == lsLinkC) = [] :=
    attachTail_filter_typeLink_nil
  unfold cdlTail
  rw [List.filter_append, List.filter_append, List.filter_append, List.filter_append,
    hat]
  by_cases hsk : sk = "DirectedBinary" <;>
    cases sem <;> cases note <;>
      simp_all

/-- A well-formed string identifier payload puts exactly one identifier on the
TO end, carrying the payload value and field. -/
lemma cdlTail_str_id (cnt : Nat) (b : String) (fd td : Node) (sem : Option Node)
    (sk : String) (t : ToIdentifier) (note : Option String)
    (hk : pyLower (pyOr t.kind "") = "string") (hv : truthyB t.value = true) :
    (cdlTail cnt b fd td sem sk (some t) note).filter
        (fun tr => tr.p == lsHasIdentifierP)
      = [⟨generate_uri b "LinkElement_to" (cnt + 2), lsHasIdentifierP,
          generate_uri b "StringBasedIdentifier" (cnt + 3)⟩] ∧
    (⟨generate_uri b "StringBasedIdentifier" (cnt + 3), lsIdentifierP,
        .lit (t.value.getD "")⟩ : Triple) ∈ cdlTail cnt b fd td sem sk (some t) note ∧
    (⟨generate_uri b "StringBasedIdentifier" (cnt + 3), lsIdentifierFieldP,
        .lit (pyOr t.fld "GUID")⟩ : Triple) ∈ cdlTail cnt b fd td sem sk (some t) note := by
  have hat := attachTail_str (cnt + 3) b (generate_uri b "LinkElement_to" (cnt + 2))
    hk hv
  refine ⟨?_, ?_, ?_⟩
  · unfold cdlTail
    rw [hat]
    cases sem <;> cases note <;> simp
  · unfold cdlTail
    rw [hat]
    simp
  · unfold cdlTail
    rw [hat]
    simp

/-- A node with no outgoing declared subclass edges reaches only itself. -/
lemma not_reaches_of_no_out {g : Graph} {c p : Node} (h : subOut g c = [])
    (hne : c ≠ p) : ¬ Reaches g c p := by
  intro hr
  cases hr with
  | refl => exact hne rfl
  | step hb _ => rw [h] at hb; exact absurd hb (List.not_mem_nil _)

-- ---------------------------------------------------------------------------
-- Claim theorems
-- ---------------------------------------------------------------------------

/-- C1: every Link produced by `create_directed_link` — for every combination
of inputs, including an unresolved semantic concept — is typed `ls:Link`,
carries a structural shape (`ls:DirectedBinaryLink` or `ls:Directed1toNLink`),
and has exactly one FROM and one TO link element, typed `ls:LinkElement`,
wrapping `fd` and `td` respectively via exactly two `ls:hasDocument` triples. -/
theorem C1_builder_always_shaped_two_elements (g : Graph) (cnt : Nat)
    (base_uri : String) (fd td : Node) (sem : Option Node) (sk : String)
    (tid : Option ToIdentifier) (note : Option String) :
    ∃ tail, (create_directed_link g cnt base_uri fd td sem sk tid note).graph
        = g ++ tail ∧
      (⟨(create_directed_link g cnt base_uri fd td sem sk tid note).link,
          rdfTypeP, lsLinkC⟩ : Triple) ∈ tail ∧
      ((⟨(create_directed_link g cnt base_uri fd td sem sk tid note).link,
          rdfTypeP, lsDirectedBinaryLinkC⟩ : Triple) ∈ tail
        ∨ (⟨(create_directed_link g cnt base_uri fd td sem sk tid note).link,
            rdfTypeP, lsDirected1toNLinkC⟩ : Triple) ∈ tail) ∧
      tail.filter (fun tr => tr.p == lsHasFromLinkElementP)
        = [⟨(create_directed_link g cnt base_uri fd td sem sk tid note).link,
            lsHasFromLinkElementP,
            (create_directed_link g cnt base_uri fd td sem sk tid note).leFrom⟩] ∧
      tail.filter (fun tr => tr.p == lsHasToLinkElementP)
        = [⟨(create_directed_link g cnt base_uri fd td sem sk tid note).link,
            lsHasToLinkElementP,
            (create_directed_link g cnt base_uri fd td sem sk tid note).leTo⟩] ∧
      tail.filter (fun tr => tr.p == lsHasDocumentP)
        = [⟨(create_directed_link g cnt base_uri fd td sem sk tid note).leFrom,
            lsHasDocumentP, fd⟩,
           ⟨(create_directed_link g cnt base_uri fd td sem sk tid note).leTo,
            lsHasDocumentP, td⟩] ∧
      (⟨(create_directed_link g cnt base_uri fd td sem sk tid note).leFrom,
          rdfTypeP, lsLinkElementC⟩ : Triple) ∈ tail ∧
      (⟨(create_directed_link g cnt base_uri fd td sem sk tid note).leTo,
          rdfTypeP, lsLinkElementC⟩ : Triple) ∈ tail := by
  rw [cdl_link, cdl_leFrom, cdl_leTo]
  refine ⟨cdlTail cnt base_uri fd td sem sk tid note,
    cdl_graph g cnt base_uri fd td sem sk tid note,
    cdlTail_mem_linkType cnt base_uri fd td sem sk tid note, ?_,
    cdlTail_filter_hasFrom cnt base_uri fd td sem sk tid note,
    cdlTail_filter_hasTo cnt base_uri fd td sem sk tid note,
    cdlTail_filter_hasDoc cnt base_uri fd td sem sk tid note,
    (cdlTail_mem_leTypes cnt base_uri fd td sem sk tid note).1,
    (cdlTail_mem_leTypes cnt base_uri fd td sem sk tid note).2⟩
  have hst := cdlTail_mem_structural cnt base_uri fd td sem sk tid note
  by_cases hsk : sk = "DirectedBinary"
  · rw [if_pos hsk] at hst; exact Or.inl hst
  · rw [if_neg hsk] at hst; exact Or.inr hst

/-- C9: any `structural_kind` other than the exact string `"DirectedBinary"`
makes the builder tag the link `ls:Directed1toNLink`; the call still succeeds
and produces the link. -/
theorem C9_unknown_structural_kind_one_to_many (g : Graph) (cnt : Nat)
    (base_uri : String) (fd td : Node) (sem : Option Node) (sk : String)
    (tid : Option ToIdentifier) (note : Option String)
    (hsk : ¬ sk = "DirectedBinary") :
    ∃ tail, (create_directed_link g cnt base_uri fd td sem sk tid note).graph
        = g ++ tail ∧
      (⟨(create_directed_link g cnt base_uri fd td sem sk tid note).link,
          rdfTypeP, lsLinkC⟩ : Triple) ∈ tail ∧
      (⟨(create_directed_link g cnt base_uri fd td sem sk tid note).link,
          rdfTypeP, lsDirected1toNLinkC⟩ : Triple) ∈ tail := by
  rw [cdl_link]
  refine ⟨cdlTail cnt base_uri fd td sem sk tid note,
    cdl_graph g cnt base_uri fd td sem sk tid note,
    cdlTail_mem_linkType cnt base_uri fd td sem sk tid note, ?_⟩
  have hst := cdlTail_mem_structural cnt base_uri fd td sem sk tid note
  rwa [if_neg hsk] at hst

/-- Witness for C9 at a concrete misspelled structural kind. -/
theorem C9_witness :
    ¬ ("Directed1toX" : String) = "DirectedBinary" ∧
    (∃ tail, (create_directed_link [] 0 "b" (.uri "d1") (.uri "d2") none
        "Directed1toX" none none).graph = [] ++ tail ∧
      (⟨(create_directed_link [] 0 "b" (.uri "d1") (.uri "d2") none
          "Directed1toX" none none).link, rdfTypeP, lsLinkC⟩ : Triple) ∈ tail ∧
      (⟨(create_directed_link [] 0 "b" (.uri "d1") (.uri "d2") none
          "Directed1toX" none none).link, rdfTypeP, lsDirected1toNLinkC⟩ : Triple)
        ∈ tail) :=
  ⟨by decide, C9_unknown_structural_kind_one_to_many [] 0 "b" (.uri "d1")
    (.uri "d2") none "Directed1toX" none none (by decide)⟩

/-- C6: a supplied `to_identifier` only ever hangs identifiers on the TO link
element, never on FROM; and when its required fields for its kind are missing
(string without value, uri without uri, query without expression, or an
unknown kind) no identifier entity is emitted at all while the Link is still
created. -/
theorem C6_identifier_to_end_or_silently_dropped (g : Graph) (cnt : Nat)
    (base_uri : String) (fd td : Node) (sem : Option Node) (sk : String)
    (t : ToIdentifier) (note : Option String) :
    ∃ tail, (create_directed_link g cnt base_uri fd td sem sk (some t) note).graph
        = g ++ tail ∧
      (∀ tr ∈ tail, tr.p = lsHasIdentifierP →
        tr.s = (create_directed_link g cnt base_uri fd td sem sk (some t) note).leTo) ∧
      (identMatched (some t) = false →
        tail.filter (fun tr => tr.p == lsHasIdentifierP || tr.p == lsIdentifierFieldP
          || tr.p == lsIdentifierP || tr.p == lsUriP || tr.p == lsQueryLanguageP
          || tr.p == lsQueryExpressionP) = [] ∧
        (∀ tr ∈ tail, tr.p = rdfTypeP →
          tr.s = (create_directed_link g cnt base_uri fd td sem sk (some t) note).link
          ∨ tr.s = (create_directed_link g cnt base_uri fd td sem sk (some t) note).leFrom
          ∨ tr.s = (create_directed_link g cnt base_uri fd td sem sk (some t) note).leTo) ∧
        (⟨(create_directed_link g cnt base_uri fd td sem sk (some t) note).link,
            rdfTypeP, lsLinkC⟩ : Triple) ∈ tail) := by
  rw [cdl_link, cdl_leFrom, cdl_leTo]
  refine ⟨cdlTail cnt base_uri fd td sem sk (some t) note,
    cdl_graph g cnt base_uri fd td sem sk (some t) note,
    cdlTail_hasId_to cnt base_uri fd td sem sk (some t) note, fun hm => ?_⟩
  exact ⟨cdlTail_unmatched_idfilter cnt base_uri fd td sem sk note hm,
    cdlTail_unmatched_typed cnt base_uri fd td sem sk note hm,
    cdlTail_mem_linkType cnt base_uri fd td sem sk (some t) note⟩

/-- Witness for C6 at a malformed payload (string kind without a value). -/
theorem C6_witness :
    identMatched (some (⟨some "string", none, none, none, none, none⟩ : ToIdentifier))
        = false ∧
    (∃ tail, (create_directed_link [] 0 "b" (.uri "d1") (.uri "d2") none
        "Directed1toN" (some ⟨some "string", none, none, none, none, none⟩) none).graph
        = [] ++ tail ∧
      (∀ tr ∈ tail, tr.p = lsHasIdentifierP →
        tr.s = (create_directed_link [] 0 "b" (.uri "d1") (.uri "d2") none
          "Directed1toN" (some ⟨some "string", none, none, none, none, none⟩) none).leTo) ∧
      (identMatched (some (⟨some "string", none, none, none, none, none⟩ : ToIdentifier))
          = false →
        tail.filter (fun tr => tr.p == lsHasIdentifierP || tr.p == lsIdentifierFieldP
          || tr.p == lsIdentifierP || tr.p == lsUriP || tr.p == lsQueryLanguageP
          || tr.p == lsQueryExpressionP) = [] ∧
        (∀ tr ∈ tail, tr.p = rdfTypeP →
          tr.s = (create_directed_link [] 0 "b" (.uri "d1") (.uri "d2") none
            "Directed1toN" (some ⟨some "string", none, none, none, none, none⟩) none).link
          ∨ tr.s = (create_directed_link [] 0 "b" (.uri "d1") (.uri "d2") none
            "Directed1toN" (some ⟨some "string", none, none, none, none, none⟩) none).leFrom
          ∨ tr.s = (create_directed_link [] 0 "b" (.uri "d1") (.uri "d2") none
            "Directed1toN" (some ⟨some "string", none, none, none, none, none⟩) none).leTo) ∧
        (⟨(create_directed_link [] 0 "b" (.uri "d1") (.uri "d2") none
            "Directed1toN" (some ⟨some "string", none, none, none, none, none⟩) none).link,
            rdfTypeP, lsLinkC⟩ : Triple) ∈ tail)) :=
  ⟨by decide, C6_identifier_to_end_or_silently_dropped [] 0 "b" (.uri "d1")
    (.uri "d2") none "Directed1toN" ⟨some "string", none, none, none, none, none⟩ none⟩

/-- C3: the subclass test is reflexive and transitive over declared subclass
edges; a text resolving to a concept two declared edges below the binary base
normalizes to Binary shape, and a resolved concept that does not reach the
binary base normalizes to OneToMany shape. -/
theorem C3_subclass_reflexive_transitive_shape (g : Graph)
    (idx : List (String × Node)) (t tMiss : String) (s1 s2 : String)
    (cBad cAny : Node)
    (h1 : (⟨.uri s1, rdfsSubClassOfP, .uri s2⟩ : Triple) ∈ g)
    (h2 : (⟨.uri s2, rdfsSubClassOfP, lsDirectedBinaryLinkC⟩ : Triple) ∈ g)
    (ht : ¬ pyLower (pyStrip t) = "")
    (hres : idx.lookup (compactKey t) = some (.uri s1))
    (htM : ¬ pyLower (pyStrip tMiss) = "")
    (hresM : idx.lookup (compactKey tMiss) = some cBad)
    (hnr : ¬ Reaches g cBad lsDirectedBinaryLinkC) :
    is_subclass_of g (.uri s1) lsDirectedBinaryLinkC = true
    ∧ is_subclass_of g cAny cAny = true
    ∧ normalize_csv_type_to_iso t idx g = (some (.uri s1), "DirectedBinary")
    ∧ normalize_csv_type_to_iso tMiss idx g = (some cBad, "Directed1toN") := by
  have hsub : is_subclass_of g (.uri s1) lsDirectedBinaryLinkC = true :=
    is_subclass_of_two_step h1 h2
  have hbad : is_subclass_of g cBad lsDirectedBinaryLinkC = false := by
    cases hb : is_subclass_of g cBad lsDirectedBinaryLinkC with
    | true => exact absurd (is_subclass_of_reaches hb) hnr
    | false => rfl
  refine ⟨hsub, is_subclass_of_refl g cAny, ?_, ?_⟩
  · rw [normalize_of_lookup ht hres, if_pos hsub]
  · rw [normalize_of_lookup htM hresM, if_neg (by rw [hbad]; exact Bool.false_ne_true)]

/-- Witness for C3 on a two-edge concept graph and a two-entry name index. -/
theorem C3_witness :
    ((⟨.uri "A", rdfsSubClassOfP, .uri "B"⟩ : Triple)
        ∈ ([⟨.uri "A", rdfsSubClassOfP, .uri "B"⟩,
            ⟨.uri "B", rdfsSubClassOfP, lsDirectedBinaryLinkC⟩] : Graph)) ∧
    (is_subclass_of [⟨.uri "A", rdfsSubClassOfP, .uri "B"⟩,
        ⟨.uri "B", rdfsSubClassOfP, lsDirectedBinaryLinkC⟩] (.uri "A")
        lsDirectedBinaryLinkC = true
      ∧ is_subclass_of [⟨.uri "A", rdfsSubClassOfP, .uri "B"⟩,
          ⟨.uri "B", rdfsSubClassOfP, lsDirectedBinaryLinkC⟩] (.uri "Z") (.uri "Z") = true
      ∧ normalize_csv_type_to_iso "foo" [("foo", .uri "A"), ("bar", .uri "D")]
          [⟨.uri "A", rdfsSubClassOfP, .uri "B"⟩,
           ⟨.uri "B", rdfsSubClassOfP, lsDirectedBinaryLinkC⟩]
          = (some (.uri "A"), "DirectedBinary")
      ∧ normalize_csv_type_to_iso "bar" [("foo", .uri "A"), ("bar", .uri "D")]
          [⟨.uri "A", rdfsSubClassOfP, .uri "B"⟩,
           ⟨.uri "B", rdfsSubClassOfP, lsDirectedBinaryLinkC⟩]
          = (some (.uri "D"), "Directed1toN")) :=
  ⟨by decide,
   C3_subclass_reflexive_transitive_shape
    [⟨.uri "A", rdfsSubClassOfP, .uri "B"⟩,
     ⟨.uri "B", rdfsSubClassOfP, lsDirectedBinaryLinkC⟩]
    [("foo", .uri "A"), ("bar", .uri "D")] "foo" "bar" "A" "B" (.uri "D") (.uri "Z")
    (by decide) (by decide) (by decide) (by decide) (by decide) (by decide)
    (not_reaches_of_no_out (by decide) (by decide))⟩

-- ---------------------------------------------------------------------------
-- Helpers for the importer claims
-- ---------------------------------------------------------------------------

/-- A list starts with itself followed by anything. -/
lemma startsWithChars_append_self : ∀ (sub suf : List Char),
    startsWithChars sub (sub ++ suf) = true := by
  intro sub suf
  induction sub with
  | nil => simp [startsWithChars]
  | cons a as ih => simp [startsWithChars, ih]

/-- A list contains any middle slice. -/
lemma containsChars_mid : ∀ (pre sub suf : List Char),
    containsChars sub (pre ++ (sub ++ suf)) = true := by
  intro pre
  induction pre with
  | nil =>
    intro sub suf
    match h : sub ++ suf with
    | [] =>
      rcases List.append_eq_nil.mp h with ⟨rfl, rfl⟩
      simp [containsChars, startsWithChars]
    | x :: xs =>
      show (startsWithChars sub (x :: xs) || containsChars sub xs) = true
      rw [← h, startsWithChars_append_self, Bool.true_or]
  | cons p pre ih =>
    intro sub suf
    rw [List.cons_append]
    show (startsWithChars sub (p :: (pre ++ (sub ++ suf)))
      || containsChars sub (pre ++ (sub ++ suf))) = true
    rw [ih, Bool.or_true]

/-- A string contains any middle slice. -/
lemma strContains_mid (pre sub suf : String) :
    strContains (pre ++ sub ++ suf) sub = true := by
  unfold strContains
  show containsChars sub.data (pre ++ sub ++ suf).data = true
  rw [String.data_append, String.data_append, List.append_assoc]
  exact containsChars_mid _ _ _

/-- `strStarts` only looks at the string, so a string starting with one
prefix cannot equal one that does not. -/
lemma ne_lsLinkC_of_strStarts {c : Node} (h : strStarts elsBase c.str = true) :
    ¬ c = lsLinkC := by
  intro he
  subst he
  exact absurd h (by decide)

/-- A successful index lookup returns a value stored in the index. -/
lemma lookup_mem {idx : List (String × Node)} {k : String} {c : Node}
    (h : idx.lookup k = some c) : (k, c) ∈ idx := by
  obtain ⟨l₁, l₂, rfl, -⟩ := List.lookup_eq_some_iff.mp h
  exact List.mem_append.mpr (Or.inr (List.mem_cons_self _ _))

/-- A concept resolved by the normalizer is a value of the name index. -/
lemma normalize_sem_mem {t : String} {idx : List (String × Node)} {g : Graph}
    {c : Node} {shape : String}
    (h : normalize_csv_type_to_iso t idx g = (some c, shape)) :
    ∃ k, (k, c) ∈ idx := by
  simp only [normalize_csv_type_to_iso] at h
  by_cases ht : pyLower (pyStrip t) = ""
  · rw [if_pos ht] at h
    cases h
  · rw [if_neg ht] at h
    cases hl : idx.lookup (aliasGet (removeChar '-' (removeChar '_' (removeChar ' '
        (pyLower (pyStrip t)))))) with
    | none => rw [hl] at h; cases h
    | some v =>
      rw [hl] at h
      have hv : v = c := by
        have := congrArg Prod.fst h
        simpa using this
      subst hv
      exact ⟨_, lookup_mem hl⟩

/-- C5: a row whose `fromPath` or `toPath` does not resolve produces zero
links, appends exactly one warning, and the batch fold simply continues with
the remaining rows from the unchanged graph state. -/
theorem C5_unresolved_path_warns_and_continues (g_index : Graph)
    (idx : List (String × Node)) (g_els : Graph) (ifc_uris : List Node)
    (b : String) (st : RowState) (row : CsvRow) (rest : List CsvRow)
    (h : find_document_uri g_index (csvNormPath row.fromPath) = none
       ∨ find_document_uri g_index (csvNormPath row.toPath) = none) :
    processRow g_index idx g_els ifc_uris b st row
      = ⟨st.gLinks, st.cnt,
         st.warnings ++ ["Documents not found for: " ++ csvNormPath row.fromPath
           ++ " or " ++ csvNormPath row.toPath]⟩
    ∧ processRows g_index idx g_els ifc_uris b st (row :: rest)
      = processRows g_index idx g_els ifc_uris b
          ⟨st.gLinks, st.cnt,
           st.warnings ++ ["Documents not found for: " ++ csvNormPath row.fromPath
             ++ " or " ++ csvNormPath row.toPath]⟩ rest := by
  have h1 : processRow g_index idx g_els ifc_uris b st row
      = ⟨st.gLinks, st.cnt,
         st.warnings ++ ["Documents not found for: " ++ csvNormPath row.fromPath
           ++ " or " ++ csvNormPath row.toPath]⟩ := by
    simp only [processRow]
    rcases h with h | h
    · rw [h]
    · rw [h]
      cases find_document_uri g_index (csvNormPath row.fromPath) <;> rfl
  refine ⟨h1, ?_⟩
  unfold processRows
  rw [List.foldl_cons, h1]

/-- Witness for C5 on an empty document index. -/
theorem C5_witness :
    (find_document_uri ([] : Graph) (csvNormPath "a.txt") = none
      ∨ find_document_uri ([] : Graph) (csvNormPath "b.txt") = none) ∧
    (processRow [] [] [] [] "b" ⟨[], 0, []⟩ ⟨"a.txt", "b.txt", "elaboration", none⟩
      = ⟨[], 0, [] ++ ["Documents not found for: " ++ csvNormPath "a.txt"
          ++ " or " ++ csvNormPath "b.txt"]⟩
    ∧ processRows [] [] [] [] "b" ⟨[], 0, []⟩
        [⟨"a.txt", "b.txt", "elaboration", none⟩]
      = processRows [] [] [] [] "b"
          ⟨[], 0, [] ++ ["Documents not found for: " ++ csvNormPath "a.txt"
            ++ " or " ++ csvNormPath "b.txt"]⟩ []) :=
  ⟨Or.inl (by decide),
   C5_unresolved_path_warns_and_continues [] [] [] [] "b" ⟨[], 0, []⟩
    ⟨"a.txt", "b.txt", "elaboration", none⟩ [] (Or.inl (by decide))⟩

/-- C10: a GUID field that is absent or whitespace-only is treated as no
identifier at all — the row produces a single link with no identifier payload
and no auxiliary HasPart link, exactly as if the GUID column were the empty
string. -/
theorem C10_blank_guid_treated_as_absent (g_index : Graph)
    (idx : List (String × Node)) (g_els : Graph) (ifc_uris : List Node)
    (b : String) (st : RowState) (row : CsvRow) (fu tu : Node)
    (hfrom : find_document_uri g_index (csvNormPath row.fromPath) = some fu)
    (hto : find_document_uri g_index (csvNormPath row.toPath) = some tu)
    (hguid : pyStrip (pyOr row.guid "") = "")
    (ns : Option Node × String)
    (hns : ns = normalize_csv_type_to_iso (pyStrip row.typ) idx g_els)
    (noteO : Option String)
    (hnote : noteO = if ns.1 = none
        then some ("Unmapped CSV Type: " ++ sq ++ pyStrip row.typ ++ sq) else none) :
    processRow g_index idx g_els ifc_uris b st row
      = ⟨(create_directed_link st.gLinks st.cnt b fu tu ns.1 ns.2 none noteO).graph,
         (create_directed_link st.gLinks st.cnt b fu tu ns.1 ns.2 none noteO).cnt,
         st.warnings⟩
    ∧ processRow g_index idx g_els ifc_uris b st ⟨row.fromPath, row.toPath, row.typ, some ""⟩
      = processRow g_index idx g_els ifc_uris b st row
    ∧ ∃ tail, (create_directed_link st.gLinks st.cnt b fu tu ns.1 ns.2 none noteO).graph
        = st.gLinks ++ tail
      ∧ tail.filter (fun tr => tr.p == lsHasIdentifierP || tr.p == lsIdentifierFieldP
          || tr.p == lsIdentifierP || tr.p == lsUriP || tr.p == lsQueryLanguageP
          || tr.p == lsQueryExpressionP) = []
      ∧ (⟨(create_directed_link st.gLinks st.cnt b fu tu ns.1 ns.2 none noteO).link,
          rdfTypeP, lsLinkC⟩ : Triple) ∈ tail := by
  subst hns
  subst hnote
  have h1 : processRow g_index idx g_els ifc_uris b st row
      = ⟨(create_directed_link st.gLinks st.cnt b fu tu
            (normalize_csv_type_to_iso (pyStrip row.typ) idx g_els).1
            (normalize_csv_type_to_iso (pyStrip row.typ) idx g_els).2 none
            (if (normalize_csv_type_to_iso (pyStrip row.typ) idx g_els).1 = none
             then some ("Unmapped CSV Type: " ++ sq ++ pyStrip row.typ ++ sq) else none)).graph,
         (create_directed_link st.gLinks st.cnt b fu tu
            (normalize_csv_type_to_iso (pyStrip row.typ) idx g_els).1
            (normalize_csv_type_to_iso (pyStrip row.typ) idx g_els).2 none
            (if (normalize_csv_type_to_iso (pyStrip row.typ) idx g_els).1 = none
             then some ("Unmapped CSV Type: " ++ sq ++ pyStrip row.typ ++ sq) else none)).cnt,
         st.warnings⟩ := by
    simp only [processRow, hfrom, hto, hguid]
    simp
  have h2 : processRow g_index idx g_els ifc_uris b st
      ⟨row.fromPath, row.toPath, row.typ, some ""⟩
      = processRow g_index idx g_els ifc_uris b st row := by
    rw [h1]
    simp only [processRow, hfrom, hto]
    simp [show pyStrip (pyOr (some "") "") = "" from rfl]
  refine ⟨h1, h2, cdlTail st.cnt b fu tu
      (normalize_csv_type_to_iso (pyStrip row.typ) idx g_els).1
      (normalize_csv_type_to_iso (pyStrip row.typ) idx g_els).2 none
      (if (normalize_csv_type_to_iso (pyStrip row.typ) idx g_els).1 = none
       then some ("Unmapped CSV Type: " ++ sq ++ pyStrip row.typ ++ sq) else none),
    cdl_graph _ _ _ _ _ _ _ _ _, ?_, ?_⟩
  · exact cdlTail_unmatched_idfilter st.cnt b fu tu _ _ _ rfl
  · rw [cdl_link]
    exact cdlTail_mem_linkType _ _ _ _ _ _ _ _

/-- Witness for C10 with a whitespace-only GUID column. -/
theorem C10_witness :
    pyStrip (pyOr (some "   ") "") = "" ∧
    (processRow [⟨.uri "d1", ctFilenameP, .lit "a.txt"⟩,
        ⟨.uri "d2", ctFilenameP, .lit "b.txt"⟩] [] [] [.uri "d2"] "b" ⟨[], 0, []⟩
        ⟨"a.txt", "b.txt", "elaboration", some "   "⟩
      = ⟨(create_directed_link [] 0 "b" (.uri "d1") (.uri "d2")
            (normalize_csv_type_to_iso (pyStrip "elaboration") [] []).1
            (normalize_csv_type_to_iso (pyStrip "elaboration") [] []).2 none
            (if (normalize_csv_type_to_iso (pyStrip "elaboration") [] []).1 = none
             then some ("Unmapped CSV Type: " ++ sq ++ pyStrip "elaboration" ++ sq)
             else none)).graph,
         (create_directed_link [] 0 "b" (.uri "d1") (.uri "d2")
            (normalize_csv_type_to_iso (pyStrip "elaboration") [] []).1
            (normalize_csv_type_to_iso (pyStrip "elaboration") [] []).2 none
            (if (normalize_csv_type_to_iso (pyStrip "elaboration") [] []).1 = none
             then some ("Unmapped CSV Type: " ++ sq ++ pyStrip "elaboration" ++ sq)
             else none)).cnt,
         []⟩
    ∧ processRow [⟨.uri "d1", ctFilenameP, .lit "a.txt"⟩,
        ⟨.uri "d2", ctFilenameP, .lit "b.txt"⟩] [] [] [.uri "d2"] "b" ⟨[], 0, []⟩
        ⟨"a.txt", "b.txt", "elaboration", some ""⟩
      = processRow [⟨.uri "d1", ctFilenameP, .lit "a.txt"⟩,
          ⟨.uri "d2", ctFilenameP, .lit "b.txt"⟩] [] [] [.uri "d2"] "b" ⟨[], 0, []⟩
          ⟨"a.txt", "b.txt", "elaboration", some "   "⟩
    ∧ ∃ tail, (create_directed_link [] 0 "b" (.uri "d1") (.uri "d2")
            (normalize_csv_type_to_iso (pyStrip "elaboration") [] []).1
            (normalize_csv_type_to_iso (pyStrip "elaboration") [] []).2 none
            (if (normalize_csv_type_to_iso (pyStrip "elaboration") [] []).1 = none
             then some ("Unmapped CSV Type: " ++ sq ++ pyStrip "elaboration" ++ sq)
             else none)).graph
        = [] ++ tail
      ∧ tail.filter (fun tr => tr.p == lsHasIdentifierP || tr.p == lsIdentifierFieldP
          || tr.p == lsIdentifierP || tr.p == lsUriP || tr.p == lsQueryLanguageP
          || tr.p == lsQueryExpressionP) = []
      ∧ (⟨(create_directed_link [] 0 "b" (.uri "d1") (.uri "d2")
            (normalize_csv_type_to_iso (pyStrip "elaboration") [] []).1
            (normalize_csv_type_to_iso (pyStrip "elaboration") [] []).2 none
            (if (normalize_csv_type_to_iso (pyStrip "elaboration") [] []).1 = none
             then some ("Unmapped CSV Type: " ++ sq ++ pyStrip "elaboration" ++ sq)
             else none)).link, rdfTypeP, lsLinkC⟩ : Triple) ∈ tail) :=
  ⟨by decide,
   C10_blank_guid_treated_as_absent
    [⟨.uri "d1", ctFilenameP, .lit "a.txt"⟩, ⟨.uri "d2", ctFilenameP, .lit "b.txt"⟩]
    [] [] [.uri "d2"] "b" ⟨[], 0, []⟩ ⟨"a.txt", "b.txt", "elaboration", some "   "⟩
    (.uri "d1") (.uri "d2") (by decide) (by decide) (by decide)
    (normalize_csv_type_to_iso (pyStrip "elaboration") [] []) rfl
    (if (normalize_csv_type_to_iso (pyStrip "elaboration") [] []).1 = none
     then some ("Unmapped CSV Type: " ++ sq ++ pyStrip "elaboration" ++ sq) else none) rfl⟩

/-- C2 (amended): for every relation-type text whose trimmed, case-folded,
separator-stripped, alias-substituted key misses the name index (including the
empty string), normalization returns (Unresolved, OneToMany); the row still
yields a link, no warning, and a diagnostic note containing the trimmed
original text. -/
theorem C2_unmapped_type_note_attached (g_index : Graph)
    (idx : List (String × Node)) (g_els : Graph) (ifc_uris : List Node)
    (b : String) (st : RowState) (row : CsvRow) (fu tu : Node)
    (hfrom : find_document_uri g_index (csvNormPath row.fromPath) = some fu)
    (hto : find_document_uri g_index (csvNormPath row.toPath) = some tu)
    (hkey : pyLower (pyStrip (pyStrip row.typ)) = ""
       ∨ idx.lookup (compactKey (pyStrip row.typ)) = none) :
    normalize_csv_type_to_iso (pyStrip row.typ) idx g_els = (none, "Directed1toN")
    ∧ ∃ tail, (processRow g_index idx g_els ifc_uris b st row).gLinks
        = st.gLinks ++ tail
      ∧ (processRow g_index idx g_els ifc_uris b st row).warnings = st.warnings
      ∧ ∃ L, (⟨L, rdfTypeP, lsLinkC⟩ : Triple) ∈ tail
        ∧ (⟨L, rdfsCommentP,
            .lit ("Unmapped CSV Type: " ++ sq ++ pyStrip row.typ ++ sq)⟩ : Triple) ∈ tail
        ∧ strContains ("Unmapped CSV Type: " ++ sq ++ pyStrip row.typ ++ sq)
            (pyStrip row.typ) = true := by
  have hnorm : normalize_csv_type_to_iso (pyStrip row.typ) idx g_els
      = (none, "Directed1toN") := normalize_unresolved hkey
  refine ⟨hnorm, ?_⟩
  have hcontains : strContains ("Unmapped CSV Type: " ++ sq ++ pyStrip row.typ ++ sq)
      (pyStrip row.typ) = true :=
    strContains_mid ("Unmapped CSV Type: " ++ sq) (pyStrip row.typ) sq
  by_cases hgv : pyStrip (pyOr row.guid "") = ""
  · have h1 : processRow g_index idx g_els ifc_uris b st row
        = ⟨(create_directed_link st.gLinks st.cnt b fu tu none "Directed1toN" none
              (some ("Unmapped CSV Type: " ++ sq ++ pyStrip row.typ ++ sq))).graph,
           (create_directed_link st.gLinks st.cnt b fu tu none "Directed1toN" none
              (some ("Unmapped CSV Type: " ++ sq ++ pyStrip row.typ ++ sq))).cnt,
           st.warnings⟩ := by
      simp only [processRow, hfrom, hto, hnorm, hgv]
      simp
    rw [h1]
    dsimp only
    refine ⟨cdlTail st.cnt b fu tu none "Directed1toN" none
        (some ("Unmapped CSV Type: " ++ sq ++ pyStrip row.typ ++ sq)),
      cdl_graph _ _ _ _ _ _ _ _ _, rfl,
      generate_uri b "Link" st.cnt,
      cdlTail_mem_linkType _ _ _ _ _ _ _ _,
      cdlTail_mem_note _ _ _ _ _ _ _ rfl, hcontains⟩
  · cases ifc_uris with
    | nil =>
      have h1 : processRow g_index idx g_els [] b st row
          = ⟨(create_directed_link st.gLinks st.cnt b fu tu none "Directed1toN"
                (some (mkGuidIdent (pyStrip (pyOr row.guid ""))))
                (some ("Unmapped CSV Type: " ++ sq ++ pyStrip row.typ ++ sq))).graph,
             (create_directed_link st.gLinks st.cnt b fu tu none "Directed1toN"
                (some (mkGuidIdent (pyStrip (pyOr row.guid ""))))
                (some ("Unmapped CSV Type: " ++ sq ++ pyStrip row.typ ++ sq))).cnt,
             st.warnings⟩ := by
        simp only [processRow, hfrom, hto, hnorm, hgv]
        simp [hgv]
      rw [h1]
      dsimp only
      refine ⟨cdlTail st.cnt b fu tu none "Directed1toN"
          (some (mkGuidIdent (pyStrip (pyOr row.guid ""))))
          (some ("Unmapped CSV Type: " ++ sq ++ pyStrip row.typ ++ sq)),
        cdl_graph _ _ _ _ _ _ _ _ _, rfl,
        generate_uri b "Link" st.cnt,
        cdlTail_mem_linkType _ _ _ _ _ _ _ _,
        cdlTail_mem_note _ _ _ _ _ _ _ rfl, hcontains⟩
    | cons fifc restIfc =>
      have h1 : processRow g_index idx g_els (fifc :: restIfc) b st row
          = ⟨(create_directed_link
                (create_directed_link st.gLinks st.cnt b fu tu none "Directed1toN"
                  (some (mkGuidIdent (pyStrip (pyOr row.guid ""))))
                  (some ("Unmapped CSV Type: " ++ sq ++ pyStrip row.typ ++ sq))).graph
                (create_directed_link st.gLinks st.cnt b fu tu none "Directed1toN"
                  (some (mkGuidIdent (pyStrip (pyOr row.guid ""))))
                  (some ("Unmapped CSV Type: " ++ sq ++ pyStrip row.typ ++ sq))).cnt
                b fifc fifc (some elsHasPartC) "Directed1toN"
                (some (mkGuidIdent (pyStrip (pyOr row.guid "")))) none).graph,
             (create_directed_link
                (create_directed_link st.gLinks st.cnt b fu tu none "Directed1toN"
                  (some (mkGuidIdent (pyStrip (pyOr row.guid ""))))
                  (some ("Unmapped CSV Type: " ++ sq ++ pyStrip row.typ ++ sq))).graph
                (create_directed_link st.gLinks st.cnt b fu tu none "Directed1toN"
                  (some (mkGuidIdent (pyStrip (pyOr row.guid ""))))
                  (some ("Unmapped CSV Type: " ++ sq ++ pyStrip row.typ ++ sq))).cnt
                b fifc fifc (some elsHasPartC) "Directed1toN"
                (some (mkGuidIdent (pyStrip (pyOr row.guid "")))) none).cnt,
             st.warnings⟩ := by
        simp only [processRow, hfrom, hto, hnorm, hgv]
        simp [hgv]
      rw [h1]
      dsimp only
      refine ⟨cdlTail st.cnt b fu tu none "Directed1toN"
          (some (mkGuidIdent (pyStrip (pyOr row.guid ""))))
          (some ("Unmapped CSV Type: " ++ sq ++ pyStrip row.typ ++ sq))
        ++ cdlTail (create_directed_link st.gLinks st.cnt b fu tu none "Directed1toN"
              (some (mkGuidIdent (pyStrip (pyOr row.guid ""))))
              (some ("Unmapped CSV Type: " ++ sq ++ pyStrip row.typ ++ sq))).cnt
            b fifc fifc (some elsHasPartC) "Directed1toN"
            (some (mkGuidIdent (pyStrip (pyOr row.guid "")))) none, ?_, rfl,
        generate_uri b "Link" st.cnt, ?_, ?_, hcontains⟩
      · rw [cdl_graph, cdl_graph, List.append_assoc]
      · exact List.mem_append.mpr (Or.inl (cdlTail_mem_linkType _ _ _ _ _ _ _ _))
      · exact List.mem_append.mpr (Or.inl (cdlTail_mem_note _ _ _ _ _ _ _ rfl))

/-- C2 counterexample: for the relation-type text `" xyz "` (whitespace around
an unknown type) the row still gets exactly one diagnostic note, but that note
does not contain the original text — only its trimmed form. -/
theorem C2_counterexample :
    normalize_csv_type_to_iso (pyStrip " xyz ") [] [] = (none, "Directed1toN")
    ∧ ((processRow [⟨.uri "d1", ctFilenameP, .lit "a.txt"⟩,
          ⟨.uri "d2", ctFilenameP, .lit "b.txt"⟩] [] [] [] "b" ⟨[], 0, []⟩
          ⟨"a.txt", "b.txt", " xyz ", none⟩).gLinks.filter
        (fun tr => tr.p == rdfsCommentP)).length = 1
    ∧ ((processRow [⟨.uri "d1", ctFilenameP, .lit "a.txt"⟩,
          ⟨.uri "d2", ctFilenameP, .lit "b.txt"⟩] [] [] [] "b" ⟨[], 0, []⟩
          ⟨"a.txt", "b.txt", " xyz ", none⟩).gLinks.filter
        (fun tr => tr.p == rdfsCommentP)).all
        (fun tr => !(strContains tr.o.str " xyz ")) = true := by
  refine ⟨by decide, by decide, by decide⟩

/-- Witness for the amended C2 at the spec example text `"xyz-unknown"`. -/
theorem C2_witness :
    (pyLower (pyStrip (pyStrip "xyz-unknown")) = ""
      ∨ ([] : List (String × Node)).lookup (compactKey (pyStrip "xyz-unknown")) = none) ∧
    (normalize_csv_type_to_iso (pyStrip "xyz-unknown") [] [] = (none, "Directed1toN")
    ∧ ∃ tail, (processRow [⟨.uri "d1", ctFilenameP, .lit "a.txt"⟩,
          ⟨.uri "d2", ctFilenameP, .lit "b.txt"⟩] [] [] [] "b" ⟨[], 0, []⟩
          ⟨"a.txt", "b.txt", "xyz-unknown", none⟩).gLinks
        = [] ++ tail
      ∧ (processRow [⟨.uri "d1", ctFilenameP, .lit "a.txt"⟩,
          ⟨.uri "d2", ctFilenameP, .lit "b.txt"⟩] [] [] [] "b" ⟨[], 0, []⟩
          ⟨"a.txt", "b.txt", "xyz-unknown", none⟩).warnings = []
      ∧ ∃ L, (⟨L, rdfTypeP, lsLinkC⟩ : Triple) ∈ tail
        ∧ (⟨L, rdfsCommentP,
            .lit ("Unmapped CSV Type: " ++ sq ++ pyStrip "xyz-unknown" ++ sq)⟩ : Triple) ∈ tail
        ∧ strContains ("Unmapped CSV Type: " ++ sq ++ pyStrip "xyz-unknown" ++ sq)
            (pyStrip "xyz-unknown") = true) :=
  ⟨Or.inr (by decide),
   C2_unmapped_type_note_attached
    [⟨.uri "d1", ctFilenameP, .lit "a.txt"⟩, ⟨.uri "d2", ctFilenameP, .lit "b.txt"⟩]
    [] [] [] "b" ⟨[], 0, []⟩ ⟨"a.txt", "b.txt", "xyz-unknown", none⟩
    (.uri "d1") (.uri "d2") (by decide) (by decide) (Or.inr (by decide))⟩

/-- C4: a row with both paths resolved, a non-blank GUID, and at least one
registered IFC document produces exactly two links: the user-declared link,
then an auxiliary link anchored on the first IFC document, self-referential
(both ends wrap that document), with the fixed `els:HasPart` concept, the
`ls:Directed1toNLink` shape, and the same GUID string identifier on its TO
end. -/
theorem C4_exactly_two_links_aux_haspart (g_index : Graph)
    (idx : List (String × Node)) (g_els : Graph) (fifc : Node)
    (restIfc : List Node) (b : String) (st : RowState) (row : CsvRow)
    (fu tu : Node) (gv : String) (ns : Option Node × String) (noteO : Option String)
    (r1 : CDLResult)
    (hfrom : find_document_uri g_index (csvNormPath row.fromPath) = some fu)
    (hto : find_document_uri g_index (csvNormPath row.toPath) = some tu)
    (hgv : gv = pyStrip (pyOr row.guid ""))
    (hguid : ¬ gv = "")
    (hns : ns = normalize_csv_type_to_iso (pyStrip row.typ) idx g_els)
    (hnote : noteO = if ns.1 = none
        then some ("Unmapped CSV Type: " ++ sq ++ pyStrip row.typ ++ sq) else none)
    (hr1 : r1 = create_directed_link st.gLinks st.cnt b fu tu ns.1 ns.2
        (some (mkGuidIdent gv)) noteO)
    (hidx : ∀ kv ∈ idx, strStarts elsBase kv.2.str = true) :
    processRow g_index idx g_els (fifc :: restIfc) b st row
      = ⟨(create_directed_link r1.graph r1.cnt b fifc fifc (some elsHasPartC)
            "Directed1toN" (some (mkGuidIdent gv)) none).graph,
         (create_directed_link r1.graph r1.cnt b fifc fifc (some elsHasPartC)
            "Directed1toN" (some (mkGuidIdent gv)) none).cnt,
         st.warnings⟩
    ∧ ∃ tail1 tail2,
        (create_directed_link r1.graph r1.cnt b fifc fifc (some elsHasPartC)
          "Directed1toN" (some (mkGuidIdent gv)) none).graph
          = st.gLinks ++ (tail1 ++ tail2)
      ∧ ((tail1 ++ tail2).filter
          (fun tr => tr.p == rdfTypeP && tr.o == lsLinkC)).length = 2
      ∧ tail2.filter (fun tr => tr.p == lsHasDocumentP)
          = [⟨generate_uri b "LinkElement_from" (r1.cnt + 1), lsHasDocumentP, fifc⟩,
             ⟨generate_uri b "LinkElement_to" (r1.cnt + 2), lsHasDocumentP, fifc⟩]
      ∧ (⟨generate_uri b "Link" r1.cnt, rdfTypeP, elsHasPartC⟩ : Triple) ∈ tail2
      ∧ (⟨generate_uri b "Link" r1.cnt, rdfTypeP, lsDirected1toNLinkC⟩ : Triple) ∈ tail2
      ∧ tail2.filter (fun tr => tr.p == lsHasIdentifierP)
          = [⟨generate_uri b "LinkElement_to" (r1.cnt + 2), lsHasIdentifierP,
              generate_uri b "StringBasedIdentifier" (r1.cnt + 3)⟩]
      ∧ (⟨generate_uri b "StringBasedIdentifier" (r1.cnt + 3), lsIdentifierP,
          .lit gv⟩ : Triple) ∈ tail2
      ∧ (⟨generate_uri b "StringBasedIdentifier" (r1.cnt + 3), lsIdentifierFieldP,
          .lit "GUID"⟩ : Triple) ∈ tail2 := by
  have hns1 : ¬ ns.1 = some lsLinkC := by
    rcases hc : ns.1 with _ | c
    · simp
    · intro he
      have hcc : c = lsLinkC := by injection he
      have hval : normalize_csv_type_to_iso (pyStrip row.typ) idx g_els
          = (some c, ns.2) := by
        rw [← hns, ← hc]
      obtain ⟨k, hk⟩ := normalize_sem_mem hval
      exact ne_lsLinkC_of_strStarts (hidx (k, c) hk) hcc
  have h1 : processRow g_index idx g_els (fifc :: restIfc) b st row
      = ⟨(create_directed_link r1.graph r1.cnt b fifc fifc (some elsHasPartC)
            "Directed1toN" (some (mkGuidIdent gv)) none).graph,
         (create_directed_link r1.graph r1.cnt b fifc fifc (some elsHasPartC)
            "Directed1toN" (some (mkGuidIdent gv)) none).cnt,
         st.warnings⟩ := by
    subst hns
    subst hnote
    subst hgv
    subst hr1
    simp only [processRow, hfrom, hto]
    simp [hguid]
  refine ⟨h1, cdlTail st.cnt b fu tu ns.1 ns.2 (some (mkGuidIdent gv)) noteO,
    cdlTail r1.cnt b fifc fifc (some elsHasPartC) "Directed1toN"
      (some (mkGuidIdent gv)) none, ?_, ?_, ?_, ?_, ?_, ?_, ?_, ?_⟩
  · rw [cdl_graph, hr1, cdl_graph, List.append_assoc]
  · rw [List.filter_append,
      cdlTail_filter_linkCount st.cnt b fu tu ns.2 (some (mkGuidIdent gv)) noteO hns1,
      cdlTail_filter_linkCount r1.cnt b fifc fifc "Directed1toN"
        (some (mkGuidIdent gv)) none (by decide)]
    rfl
  · exact cdlTail_filter_hasDoc r1.cnt b fifc fifc (some elsHasPartC) "Directed1toN"
      (some (mkGuidIdent gv)) none
  · exact cdlTail_mem_sem r1.cnt b fifc fifc "Directed1toN"
      (some (mkGuidIdent gv)) none rfl
  · have hst := cdlTail_mem_structural r1.cnt b fifc fifc (some elsHasPartC)
      "Directed1toN" (some (mkGuidIdent gv)) none
    rwa [if_neg (by decide)] at hst
  · exact (cdlTail_str_id r1.cnt b fifc fifc (some elsHasPartC) "Directed1toN"
      (mkGuidIdent gv) none rfl (by simp [truthyB, mkGuidIdent, hguid])).1
  · exact (cdlTail_str_id r1.cnt b fifc fifc (some elsHasPartC) "Directed1toN"
      (mkGuidIdent gv) none rfl (by simp [truthyB, mkGuidIdent, hguid])).2.1
  · exact (cdlTail_str_id r1.cnt b fifc fifc (some elsHasPartC) "Directed1toN"
      (mkGuidIdent gv) none rfl (by simp [truthyB, mkGuidIdent, hguid])).2.2

/-- Witness for C4 on a registry with one IFC document and GUID `"G123"`. -/
theorem C4_witness :
    (¬ ("G123" : String) = "") ∧
    (processRow [⟨.uri "d1", ctFilenameP, .lit "a.txt"⟩, ⟨.uri "m", ctFilenameP, .lit "model.ifc"⟩] [] [] [.uri "m"] "b" ⟨[], 0, []⟩
        ⟨"a.txt", "model.ifc", "elaboration", some "G123"⟩
      = ⟨(create_directed_link (create_directed_link [] 0 "b" (.uri "d1") (.uri "m") (normalize_csv_type_to_iso (pyStrip "elaboration") [] []).1 (normalize_csv_type_to_iso (pyStrip "elaboration") [] []).2
       (some (mkGuidIdent "G123")) (if (normalize_csv_type_to_iso (pyStrip "elaboration") [] []).1 = none
       then some ("Unmapped CSV Type: " ++ sq ++ pyStrip "elaboration" ++ sq) else none)).graph (create_directed_link [] 0 "b" (.uri "d1") (.uri "m") (normalize_csv_type_to_iso (pyStrip "elaboration") [] []).1 (normalize_csv_type_to_iso (pyStrip "elaboration") [] []).2
       (some (mkGuidIdent "G123")) (if (normalize_csv_type_to_iso (pyStrip "elaboration") [] []).1 = none
       then some ("Unmapped CSV Type: " ++ sq ++ pyStrip "elaboration" ++ sq) else none)).cnt "b" (.uri "m") (.uri "m")
       (some elsHasPartC) "Directed1toN" (some (mkGuidIdent "G123")) none).graph,
         (create_directed_link (create_directed_link [] 0 "b" (.uri "d1") (.uri "m") (normalize_csv_type_to_iso (pyStrip "elaboration") [] []).1 (normalize_csv_type_to_iso (pyStrip "elaboration") [] []).2
       (some (mkGuidIdent "G123")) (if (normalize_csv_type_to_iso (pyStrip "elaboration") [] []).1 = none
       then some ("Unmapped CSV Type: " ++ sq ++ pyStrip "elaboration" ++ sq) else none)).graph (create_directed_link [] 0 "b" (.uri "d1") (.uri "m") (normalize_csv_type_to_iso (pyStrip "elaboration") [] []).1 (normalize_csv_type_to_iso (pyStrip "elaboration") [] []).2
       (some (mkGuidIdent "G123")) (if (normalize_csv_type_to_iso (pyStrip "elaboration") [] []).1 = none
       then some ("Unmapped CSV Type: " ++ sq ++ pyStrip "elaboration" ++ sq) else none)).cnt "b" (.uri "m") (.uri "m")
       (some elsHasPartC) "Directed1toN" (some (mkGuidIdent "G123")) none).cnt,
         []⟩
    ∧ ∃ tail1 tail2,
        (create_directed_link (create_directed_link [] 0 "b" (.uri "d1") (.uri "m") (normalize_csv_type_to_iso (pyStrip "elaboration") [] []).1 (normalize_csv_type_to_iso (pyStrip "elaboration") [] []).2
       (some (mkGuidIdent "G123")) (if (normalize_csv_type_to_iso (pyStrip "elaboration") [] []).1 = none
       then some ("Unmapped CSV Type: " ++ sq ++ pyStrip "elaboration" ++ sq) else none)).graph (create_directed_link [] 0 "b" (.uri "d1") (.uri "m") (normalize_csv_type_to_iso (pyStrip "elaboration") [] []).1 (normalize_csv_type_to_iso (pyStrip "elaboration") [] []).2
       (some (mkGuidIdent "G123")) (if (normalize_csv_type_to_iso (pyStrip "elaboration") [] []).1 = none
       then some ("Unmapped CSV Type: " ++ sq ++ pyStrip "elaboration" ++ sq) else none)).cnt "b" (.uri "m") (.uri "m")
       (some elsHasPartC) "Directed1toN" (some (mkGuidIdent "G123")) none).graph
          = [] ++ (tail1 ++ tail2)
      ∧ ((tail1 ++ tail2).filter
          (fun tr => tr.p == rdfTypeP && tr.o == lsLinkC)).length = 2
      ∧ tail2.filter (fun tr => tr.p == lsHasDocumentP)
          = [⟨generate_uri "b" "LinkElement_from" ((create_directed_link [] 0 "b" (.uri "d1") (.uri "m") (normalize_csv_type_to_iso (pyStrip "elaboration") [] []).1 (normalize_csv_type_to_iso (pyStrip "elaboration") [] []).2
       (some (mkGuidIdent "G123")) (if (normalize_csv_type_to_iso (pyStrip "elaboration") [] []).1 = none
       then some ("Unmapped CSV Type: " ++ sq ++ pyStrip "elaboration" ++ sq) else none)).cnt + 1), lsHasDocumentP, .uri "m"⟩,
             ⟨generate_uri "b" "LinkElement_to" ((create_directed_link [] 0 "b" (.uri "d1") (.uri "m") (normalize_csv_type_to_iso (pyStrip "elaboration") [] []).1 (normalize_csv_type_to_iso (pyStrip "elaboration") [] []).2
       (some (mkGuidIdent "G123")) (if (normalize_csv_type_to_iso (pyStrip "elaboration") [] []).1 = none
       then some ("Unmapped CSV Type: " ++ sq ++ pyStrip "elaboration" ++ sq) else none)).cnt + 2), lsHasDocumentP, .uri "m"⟩]
      ∧ (⟨generate_uri "b" "Link" (create_directed_link [] 0 "b" (.uri "d1") (.uri "m") (normalize_csv_type_to_iso (pyStrip "elaboration") [] []).1 (normalize_csv_type_to_iso (pyStrip "elaboration") [] []).2
       (some (mkGuidIdent "G123")) (if (normalize_csv_type_to_iso (pyStrip "elaboration") [] []).1 = none
       then some ("Unmapped CSV Type: " ++ sq ++ pyStrip "elaboration" ++ sq) else none)).cnt, rdfTypeP, elsHasPartC⟩ : Triple) ∈ tail2
      ∧ (⟨generate_uri "b" "Link" (create_directed_link [] 0 "b" (.uri "d1") (.uri "m") (normalize_csv_type_to_iso (pyStrip "elaboration") [] []).1 (normalize_csv_type_to_iso (pyStrip "elaboration") [] []).2
       (some (mkGuidIdent "G123")) (if (normalize_csv_type_to_iso (pyStrip "elaboration") [] []).1 = none
       then some ("Unmapped CSV Type: " ++ sq ++ pyStrip "elaboration" ++ sq) else none)).cnt, rdfTypeP, lsDirected1toNLinkC⟩ : Triple) ∈ tail2
      ∧ tail2.filter (fun tr => tr.p == lsHasIdentifierP)
          = [⟨generate_uri "b" "LinkElement_to" ((create_directed_link [] 0 "b" (.uri "d1") (.uri "m") (normalize_csv_type_to_iso (pyStrip "elaboration") [] []).1 (normalize_csv_type_to_iso (pyStrip "elaboration") [] []).2
       (some (mkGuidIdent "G123")) (if (normalize_csv_type_to_iso (pyStrip "elaboration") [] []).1 = none
       then some ("Unmapped CSV Type: " ++ sq ++ pyStrip "elaboration" ++ sq) else none)).cnt + 2), lsHasIdentifierP,
              generate_uri "b" "StringBasedIdentifier" ((create_directed_link [] 0 "b" (.uri "d1") (.uri "m") (normalize_csv_type_to_iso (pyStrip "elaboration") [] []).1 (normalize_csv_type_to_iso (pyStrip "elaboration") [] []).2
       (some (mkGuidIdent "G123")) (if (normalize_csv_type_to_iso (pyStrip "elaboration") [] []).1 = none
       then some ("Unmapped CSV Type: " ++ sq ++ pyStrip "elaboration" ++ sq) else none)).cnt + 3)⟩]
      ∧ (⟨generate_uri "b" "StringBasedIdentifier" ((create_directed_link [] 0 "b" (.uri "d1") (.uri "m") (normalize_csv_type_to_iso (pyStrip "elaboration") [] []).1 (normalize_csv_type_to_iso (pyStrip "elaboration") [] []).2
       (some (mkGuidIdent "G123")) (if (normalize_csv_type_to_iso (pyStrip "elaboration") [] []).1 = none
       then some ("Unmapped CSV Type: " ++ sq ++ pyStrip "elaboration" ++ sq) else none)).cnt + 3), lsIdentifierP,
          .lit "G123"⟩ : Triple) ∈ tail2
      ∧ (⟨generate_uri "b" "StringBasedIdentifier" ((create_directed_link [] 0 "b" (.uri "d1") (.uri "m") (normalize_csv_type_to_iso (pyStrip "elaboration") [] []).1 (normalize_csv_type_to_iso (pyStrip "elaboration") [] []).2
       (some (mkGuidIdent "G123")) (if (normalize_csv_type_to_iso (pyStrip "elaboration") [] []).1 = none
       then some ("Unmapped CSV Type: " ++ sq ++ pyStrip "elaboration" ++ sq) else none)).cnt + 3), lsIdentifierFieldP,
          .lit "GUID"⟩ : Triple) ∈ tail2) :=
  ⟨by decide,
   C4_exactly_two_links_aux_haspart [⟨.uri "d1", ctFilenameP, .lit "a.txt"⟩, ⟨.uri "m", ctFilenameP, .lit "model.ifc"⟩] [] [] (.uri "m") [] "b" ⟨[], 0, []⟩
    ⟨"a.txt", "model.ifc", "elaboration", some "G123"⟩ (.uri "d1") (.uri "m")
    "G123" (normalize_csv_type_to_iso (pyStrip "elaboration") [] [])
    (if (normalize_csv_type_to_iso (pyStrip "elaboration") [] []).1 = none
       then some ("Unmapped CSV Type: " ++ sq ++ pyStrip "elaboration" ++ sq) else none)
    (create_directed_link [] 0 "b" (.uri "d1") (.uri "m") (normalize_csv_type_to_iso (pyStrip "elaboration") [] []).1 (normalize_csv_type_to_iso (pyStrip "elaboration") [] []).2
       (some (mkGuidIdent "G123")) (if (normalize_csv_type_to_iso (pyStrip "elaboration") [] []).1 = none
       then some ("Unmapped CSV Type: " ++ sq ++ pyStrip "elaboration" ++ sq) else none))
    (by decide) (by decide) (by decide) (by decide) rfl rfl rfl (by simp)⟩

-- ---------------------------------------------------------------------------
-- Document resolution facts (C7)
-- ---------------------------------------------------------------------------

/-- The head of a `dropWhile` fails the predicate. -/
lemma head?_mem_false {α : Type} (p : α → Bool) (l : List α) (a : α)
    (h : (l.dropWhile p).head? = some a) : p a = false := by
  have hx := List.head?_dropWhile_not p l
  rw [h] at hx
  exact hx

/-- Slash normalization is idempotent. -/
lemma slashify_idem (p : String) : slashify (slashify p) = slashify p := by
  unfold slashify
  show String.mk (List.map _ (List.map _ p.data)) = String.mk (List.map _ p.data)
  rw [List.map_map]
  congr 1
  apply List.map_congr_left
  intro c _
  by_cases hc : c = '\\' <;> simp [hc]

/-- C7: document resolution (a) is invariant under pre-normalizing the input
slashes, (b) resolves only by exact equality of the normalized path with a
recorded file or folder path, (c) prefers file matches: whenever some file
triple matches, the result is a matching file subject, (d) returns `NotFound`
when no recorded path is exactly equal, and (e) the importer-side path
normalization leaves no backslashes and no leading separator. -/
theorem C7_exact_match_files_first (g : Graph) (p pth : String) (d : Node) :
    (find_document_uri g p = find_document_uri g (slashify p))
    ∧ (find_document_uri g p = some d →
        ∃ tr ∈ g, tr.s = d ∧ (tr.p = ctFilenameP ∨ tr.p = ctFoldernameP)
          ∧ tr.o.str = slashify p)
    ∧ ((∃ tr ∈ g, tr.p = ctFilenameP ∧ tr.o.str = slashify p) →
        ∃ tr ∈ g, find_document_uri g p = some tr.s ∧ tr.p = ctFilenameP
          ∧ tr.o.str = slashify p)
    ∧ ((∀ tr ∈ g, (tr.p = ctFilenameP ∨ tr.p = ctFoldernameP) →
          ¬ tr.o.str = slashify p) →
        find_document_uri g p = none)
    ∧ (csvNormPath pth).data.all (fun c => c != '\\') = true
    ∧ (∀ c, (csvNormPath pth).data.head? = some c → ¬ (c = '/' ∨ c = '\\')) := by
  refine ⟨?_, ?_, ?_, ?_, ?_, ?_⟩
  · unfold find_document_uri
    rw [slashify_idem]
  · intro h
    simp only [find_document_uri] at h
    cases hf : (g.find? (fun tr => tr.p == ctFilenameP && tr.o.str == slashify p)).map
        Triple.s with
    | some s =>
      rw [hf] at h
      obtain ⟨tr, htr, hs⟩ := Option.map_eq_some'.mp hf
      have hpred := List.find?_some htr
      rw [Bool.and_eq_true, beq_iff_eq, beq_iff_eq] at hpred
      have heq : s = d := by
        have := h
        simp only [Option.some.injEq] at this
        exact this
      exact ⟨tr, List.mem_of_find?_eq_some htr, by rw [hs, heq], Or.inl hpred.1,
        hpred.2⟩
    | none =>
      rw [hf] at h
      obtain ⟨tr, htr, hs⟩ := Option.map_eq_some'.mp h
      have hpred := List.find?_some htr
      rw [Bool.and_eq_true, beq_iff_eq, beq_iff_eq] at hpred
      exact ⟨tr, List.mem_of_find?_eq_some htr, hs, Or.inr hpred.1, hpred.2⟩
  · intro h
    obtain ⟨tr, htr, hp, ho⟩ := h
    have hsome : (g.find? (fun tr => tr.p == ctFilenameP
        && tr.o.str == slashify p)).isSome := by
      rw [List.find?_isSome]
      exact ⟨tr, htr, by rw [Bool.and_eq_true, beq_iff_eq, beq_iff_eq]; exact ⟨hp, ho⟩⟩
    obtain ⟨tr2, htr2⟩ := Option.isSome_iff_exists.mp hsome
    have hpred := List.find?_some htr2
    rw [Bool.and_eq_true, beq_iff_eq, beq_iff_eq] at hpred
    refine ⟨tr2, List.mem_of_find?_eq_some htr2, ?_, hpred.1, hpred.2⟩
    simp only [find_document_uri]
    rw [htr2]
    rfl
  · intro h
    have hf : g.find? (fun tr => tr.p == ctFilenameP && tr.o.str == slashify p)
        = none := by
      rw [List.find?_eq_none]
      intro tr htr hpred
      rw [Bool.and_eq_true, beq_iff_eq, beq_iff_eq] at hpred
      exact h tr htr (Or.inl hpred.1) hpred.2
    have hd : g.find? (fun tr => tr.p == ctFoldernameP && tr.o.str == slashify p)
        = none := by
      rw [List.find?_eq_none]
      intro tr htr hpred
      rw [Bool.and_eq_true, beq_iff_eq, beq_iff_eq] at hpred
      exact h tr htr (Or.inr hpred.1) hpred.2
    simp only [find_document_uri]
    rw [hf, hd]
    rfl
  · rw [List.all_eq_true]
    intro c hc
    unfold csvNormPath slashify at hc
    rw [show (String.mk (List.map (fun c => if c == '\\' then '/' else c)
        (lstripSlashes (pyStrip pth)).toList)).data
      = List.map (fun c => if c == '\\' then '/' else c)
        (lstripSlashes (pyStrip pth)).toList from rfl] at hc
    obtain ⟨a, -, ha⟩ := List.mem_map.mp hc
    subst ha
    by_cases hab : a = '\\' <;> simp [hab]
  · intro c hc
    unfold csvNormPath slashify lstripSlashes at hc
    rw [show (String.mk (List.map (fun c => if c == '\\' then '/' else c)
        (String.mk ((pyStrip pth).toList.dropWhile
          (fun c => c == '\\' || c == '/'))).toList)).data
      = List.map (fun c => if c == '\\' then '/' else c)
        ((pyStrip pth).toList.dropWhile (fun c => c == '\\' || c == '/')) from rfl,
      List.head?_map] at hc
    obtain ⟨a, ha, hfa⟩ := Option.map_eq_some'.mp hc
    have := head?_mem_false (fun c => c == '\\' || c == '/') (pyStrip pth).toList a ha
    rw [Bool.or_eq_false_iff, beq_eq_false_iff_ne, beq_eq_false_iff_ne] at this
    subst hfa
    rcases this with ⟨h1, h2⟩
    by_cases hab : a = '\\'
    · exact absurd hab h1
    · simp [hab, h2]

/-- Witness for C7 on a registry whose folder triple precedes the matching
file triple. -/
theorem C7_witness :
    (find_document_uri [⟨.uri "f0", ctFoldernameP, .lit "sub/f.txt"⟩, ⟨.uri "d1", ctFilenameP, .lit "sub/f.txt"⟩] "sub\\f.txt" = find_document_uri [⟨.uri "f0", ctFoldernameP, .lit "sub/f.txt"⟩, ⟨.uri "d1", ctFilenameP, .lit "sub/f.txt"⟩] (slashify "sub\\f.txt"))
    ∧ (find_document_uri [⟨.uri "f0", ctFoldernameP, .lit "sub/f.txt"⟩, ⟨.uri "d1", ctFilenameP, .lit "sub/f.txt"⟩] "sub\\f.txt" = some (.uri "d1") →
        ∃ tr ∈ ([⟨.uri "f0", ctFoldernameP, .lit "sub/f.txt"⟩, ⟨.uri "d1", ctFilenameP, .lit "sub/f.txt"⟩] : Graph), tr.s = .uri "d1"
          ∧ (tr.p = ctFilenameP ∨ tr.p = ctFoldernameP) ∧ tr.o.str = slashify "sub\\f.txt")
    ∧ ((∃ tr ∈ ([⟨.uri "f0", ctFoldernameP, .lit "sub/f.txt"⟩, ⟨.uri "d1", ctFilenameP, .lit "sub/f.txt"⟩] : Graph), tr.p = ctFilenameP ∧ tr.o.str = slashify "sub\\f.txt") →
        ∃ tr ∈ ([⟨.uri "f0", ctFoldernameP, .lit "sub/f.txt"⟩, ⟨.uri "d1", ctFilenameP, .lit "sub/f.txt"⟩] : Graph), find_document_uri [⟨.uri "f0", ctFoldernameP, .lit "sub/f.txt"⟩, ⟨.uri "d1", ctFilenameP, .lit "sub/f.txt"⟩] "sub\\f.txt" = some tr.s
          ∧ tr.p = ctFilenameP ∧ tr.o.str = slashify "sub\\f.txt")
    ∧ ((∀ tr ∈ ([⟨.uri "f0", ctFoldernameP, .lit "sub/f.txt"⟩, ⟨.uri "d1", ctFilenameP, .lit "sub/f.txt"⟩] : Graph), (tr.p = ctFilenameP ∨ tr.p = ctFoldernameP) →
          ¬ tr.o.str = slashify "sub\\f.txt") →
        find_document_uri [⟨.uri "f0", ctFoldernameP, .lit "sub/f.txt"⟩, ⟨.uri "d1", ctFilenameP, .lit "sub/f.txt"⟩] "sub\\f.txt" = none)
    ∧ (csvNormPath " /x\\y ").data.all (fun c => c != '\\') = true
    ∧ (∀ c, (csvNormPath " /x\\y ").data.head? = some c → ¬ (c = '/' ∨ c = '\\')) :=
  C7_exact_match_files_first [⟨.uri "f0", ctFoldernameP, .lit "sub/f.txt"⟩, ⟨.uri "d1", ctFilenameP, .lit "sub/f.txt"⟩] "sub\\f.txt" " /x\\y " (.uri "d1")

-- ---------------------------------------------------------------------------
-- Path collapsing: the scan-until-fixpoint loop computes adjacent dedup (C8)
-- ---------------------------------------------------------------------------

/-- The scan finds nothing exactly on adjacent-duplicate-free lists. -/
lemma scanStep_eq_none_iff : ∀ l, scanStep l = none ↔ noAdjDupB l = true := by
  intro l
  induction l with
  | nil => simp [scanStep, noAdjDupB]
  | cons a t ih =>
    cases t with
    | nil => simp [scanStep, noAdjDupB]
    | cons b t2 =>
      by_cases hab : a = b
      · simp [scanStep, noAdjDupB, hab]
      · simp [scanStep, noAdjDupB, hab, ih]

/-- A successful scan removes exactly one element. -/
lemma scanStep_some_length : ∀ {l l2}, scanStep l = some l2 → l2.length + 1 = l.length := by
  intro l
  induction l with
  | nil => intro l2 h; cases h
  | cons a t ih =>
    cases t with
    | nil => intro l2 h; cases h
    | cons b t2 =>
      intro l2 h
      by_cases hab : a = b
      · rw [scanStep, if_pos hab] at h
        cases h
        simp
      · rw [scanStep, if_neg hab] at h
        obtain ⟨m, hm, rfl⟩ := Option.map_eq_some'.mp h
        have := ih hm
        simp only [List.length_cons] at this ⊢
        omega

/-- A successful scan keeps the head. -/
lemma scanStep_some_head : ∀ {l l2}, scanStep l = some l2 → l2.head? = l.head? := by
  intro l
  induction l with
  | nil => intro l2 h; cases h
  | cons a t _ =>
    cases t with
    | nil => intro l2 h; cases h
    | cons b t2 =>
      intro l2 h
      by_cases hab : a = b
      · rw [scanStep, if_pos hab] at h
        cases h
        rfl
      · rw [scanStep, if_neg hab] at h
        obtain ⟨m, _, rfl⟩ := Option.map_eq_some'.mp h
        rfl

/-- Adjacent dedup of a duplicate-free list is the list itself. -/
lemma dedupAdj_eq_self : ∀ {l}, noAdjDupB l = true → dedupAdj l = l := by
  intro l
  induction l with
  | nil => intro _; rfl
  | cons a t ih =>
    cases t with
    | nil => intro _; rfl
    | cons b t2 =>
      intro h
      rw [noAdjDupB, Bool.and_eq_true, bne_iff_ne] at h
      rw [dedupAdj, if_neg h.1, ih h.2]

/-- Adjacent dedup keeps the head. -/
lemma dedupAdj_head? : ∀ l, (dedupAdj l).head? = l.head? := by
  intro l
  induction l with
  | nil => rfl
  | cons a t ih =>
    cases t with
    | nil => rfl
    | cons b t2 =>
      by_cases hab : a = b
      · rw [dedupAdj, if_pos hab, ih, hab]
        rfl
      · rw [dedupAdj, if_neg hab]
        rfl

/-- Adjacent dedup only keeps elements of the list. -/
lemma mem_dedupAdj : ∀ {l x}, x ∈ dedupAdj l → x ∈ l := by
  intro l
  induction l with
  | nil => intro x h; cases h
  | cons a t ih =>
    cases t with
    | nil => intro x h; exact h
    | cons b t2 =>
      intro x h
      by_cases hab : a = b
      · rw [dedupAdj, if_pos hab] at h
        exact List.mem_cons_of_mem _ (ih h)
      · rw [dedupAdj, if_neg hab] at h
        rcases List.mem_cons.mp h with rfl | h2
        · exact List.mem_cons_self _ _
        · exact List.mem_cons_of_mem _ (ih h2)

/-- Adjacent dedup produces a duplicate-free list. -/
lemma noAdjDupB_dedupAdj : ∀ l, noAdjDupB (dedupAdj l) = true := by
  intro l
  induction l with
  | nil => rfl
  | cons a t ih =>
    cases t with
    | nil => rfl
    | cons b t2 =>
      by_cases hab : a = b
      · rw [dedupAdj, if_pos hab]
        exact ih
      · rw [dedupAdj, if_neg hab]
        cases hd : dedupAdj (b :: t2) with
        | nil => rfl
        | cons c cs =>
          have hc : c = b := by
            have := dedupAdj_head? (b :: t2)
            rw [hd] at this
            simpa using this
          rw [noAdjDupB, Bool.and_eq_true, bne_iff_ne]
          exact ⟨hc ▸ hab, hd ▸ ih⟩

/-- A successful scan does not change the adjacent dedup. -/
lemma scanStep_some_dedupAdj : ∀ {l l2}, scanStep l = some l2 →
    dedupAdj l2 = dedupAdj l := by
  intro l
  induction l with
  | nil => intro l2 h; cases h
  | cons a t ih =>
    cases t with
    | nil => intro l2 h; cases h
    | cons b t2 =>
      intro l2 h
      by_cases hab : a = b
      · rw [scanStep, if_pos hab] at h
        cases h
        rw [dedupAdj, if_pos hab, hab]
      · rw [scanStep, if_neg hab] at h
        obtain ⟨m, hm, rfl⟩ := Option.map_eq_some'.mp h
        have hhead := scanStep_some_head hm
        cases m with
        | nil => simp at hhead
        | cons c cs =>
          have hc : c = b := by simpa using hhead
          subst hc
          rw [dedupAdj, if_neg hab, dedupAdj, if_neg hab, ih hm]

/-- The collapse loop with enough fuel computes adjacent dedup. -/
lemma collapseLoop_eq_dedupAdj : ∀ (n : Nat) (l), l.length ≤ n →
    collapseLoop n l = dedupAdj l := by
  intro n
  induction n with
  | zero =>
    intro l hl
    rw [Nat.le_zero, List.length_eq_zero] at hl
    subst hl
    rfl
  | succ n ih =>
    intro l hl
    rw [collapseLoop]
    cases hs : scanStep l with
    | none => exact (dedupAdj_eq_self ((scanStep_eq_none_iff l).mp hs)).symm
    | some l2 =>
      have hlen := scanStep_some_length hs
      show collapseLoop n l2 = dedupAdj l
      rw [ih l2 (by omega), scanStep_some_dedupAdj hs]

/-- The collapse loop fixes duplicate-free lists. -/
lemma collapseLoop_fix {l} (n : Nat) (h : noAdjDupB l = true) :
    collapseLoop n l = l := by
  cases n with
  | zero => rfl
  | succ n =>
    rw [collapseLoop, (scanStep_eq_none_iff l).mpr h]

-- ---------------------------------------------------------------------------
-- Splitting and joining path segments (C8)
-- ---------------------------------------------------------------------------

/-- Splitting never yields an empty segment list. -/
lemma splitChar_ne_nil (sep : Char) : ∀ l, splitChar sep l ≠ [] := by
  intro l
  induction l with
  | nil => simp [splitChar]
  | cons c t ih =>
    rw [splitChar]
    by_cases hc : c == sep
    · rw [if_pos hc]
      simp
    · rw [if_neg hc]
      cases hr : splitChar sep t with
      | nil => exact absurd hr ih
      | cons h t2 => simp

/-- Split segments never contain the separator. -/
lemma mem_splitChar_no_sep (sep : Char) : ∀ l s, s ∈ splitChar sep l → sep ∉ s := by
  intro l
  induction l with
  | nil =>
    intro s hs
    rw [splitChar] at hs
    rw [List.mem_singleton] at hs
    subst hs
    exact List.not_mem_nil sep
  | cons c t ih =>
    intro s hs
    rw [splitChar] at hs
    by_cases hc : c == sep
    · rw [if_pos hc] at hs
      rcases List.mem_cons.mp hs with rfl | hs2
      · exact List.not_mem_nil sep
      · exact ih s hs2
    · rw [if_neg hc] at hs
      cases hr : splitChar sep t with
      | nil => exact absurd hr (splitChar_ne_nil sep t)
      | cons h t2 =>
        rw [hr] at hs
        rcases List.mem_cons.mp hs with rfl | hs2
        · intro hmem
          rcases List.mem_cons.mp hmem with rfl | hmem2
          · exact hc (by simp)
          · exact ih h (hr ▸ List.mem_cons_self h t2) hmem2
        · exact ih s (hr ▸ List.mem_cons_of_mem h hs2)

/-- Splitting a separator-free list gives that single segment. -/
lemma splitChar_no_sep_single : ∀ p : List Char, '/' ∉ p → splitChar '/' p = [p] := by
  intro p
  induction p with
  | nil => intro _; rfl
  | cons c cs ih =>
    intro h
    have hc : ¬ c = '/' := fun he => h (he ▸ List.mem_cons_self c cs)
    rw [splitChar, if_neg (by simpa using hc),
      ih (fun hm => h (List.mem_cons_of_mem c hm))]

/-- Splitting distributes over one separator. -/
lemma splitChar_append_sep : ∀ (p m : List Char), '/' ∉ p →
    splitChar '/' (p ++ '/' :: m) = p :: splitChar '/' m := by
  intro p
  induction p with
  | nil =>
    intro m _
    rw [List.nil_append, splitChar, if_pos (by simp)]
  | cons c cs ih =>
    intro m h
    have hc : ¬ c = '/' := fun he => h (he ▸ List.mem_cons_self c cs)
    rw [List.cons_append, splitChar, if_neg (by simpa using hc),
      ih m (fun hm => h (List.mem_cons_of_mem c hm))]

/-- Joining nonempty separator-free segments and splitting again round-trips. -/
lemma splitChar_joinWithSlash : ∀ parts, parts ≠ [] → (∀ s ∈ parts, '/' ∉ s) →
    splitChar '/' (joinWithSlash parts) = parts := by
  intro parts
  induction parts with
  | nil => intro h; exact absurd rfl h
  | cons a rest ih =>
    intro _ hs
    cases rest with
    | nil => exact splitChar_no_sep_single a (hs a (List.mem_cons_self a []))
    | cons b t =>
      rw [show joinWithSlash (a :: b :: t) = a ++ '/' :: joinWithSlash (b :: t) from rfl,
        splitChar_append_sep _ _ (hs a (List.mem_cons_self a (b :: t))),
        ih (by simp) (fun s hmem => hs s (List.mem_cons_of_mem a hmem))]

/-- A joined segment list starts with its first segment. -/
lemma joinWithSlash_head_append : ∀ (a : List Char) (rest : List (List Char)),
    ∃ q, joinWithSlash (a :: rest) = a ++ q := by
  intro a rest
  cases rest with
  | nil => exact ⟨[], (List.append_nil a).symm⟩
  | cons b t => exact ⟨'/' :: joinWithSlash (b :: t), rfl⟩

/-- Joining nonempty segments is nonempty. -/
lemma joinWithSlash_ne_nil : ∀ parts, parts ≠ [] → (∀ s ∈ parts, s ≠ []) →
    joinWithSlash parts ≠ [] := by
  intro parts hne hs
  cases parts with
  | nil => exact absurd rfl hne
  | cons a rest =>
    obtain ⟨q, hq⟩ := joinWithSlash_head_append a rest
    rw [hq]
    have ha : a ≠ [] := hs a (List.mem_cons_self a rest)
    simp [List.append_eq_nil, ha]

/-- The `os.path.join` fold equals a plain slash join on nonempty
separator-free segments. -/
lemma foldl_joinTwo : ∀ (rest : List (List Char)) (pp : List Char), pp ≠ [] →
    (∀ c, pp.getLast? = some c → ¬ c = '/') →
    (∀ s ∈ rest, s ≠ [] ∧ '/' ∉ s) →
    rest.foldl joinTwo pp = joinWithSlash (pp :: rest) := by
  intro rest
  induction rest with
  | nil => intro pp _ _ _; rfl
  | cons b rest ih =>
    intro pp hpp hlast hs
    obtain ⟨hb, hbs⟩ := hs b (List.mem_cons_self b rest)
    have hstep : joinTwo pp b = pp ++ '/' :: b := by
      rw [joinTwo, if_neg ?hhead, if_neg ?hsecond]
      case hhead =>
        intro hh
        cases b with
        | nil => cases hh
        | cons x xs =>
          have : x = '/' := by simpa using hh
          exact hbs (this ▸ List.mem_cons_self x xs)
      case hsecond =>
        rintro (h1 | h2)
        · exact hpp h1
        · exact hlast '/' h2 rfl
    rw [List.foldl_cons, hstep,
      ih (pp ++ '/' :: b) (by simp) ?hlast2 (fun s hmem => hs s (List.mem_cons_of_mem b hmem))]
    case hlast2 =>
      intro c hc
      rw [List.getLast?_append_of_ne_nil pp (by simp)] at hc
      rw [show ('/' :: b : List Char) = ['/'] ++ b from rfl,
        List.getLast?_append_of_ne_nil ['/'] hb] at hc
      have hcm := List.mem_of_getLast?_eq_some hc
      exact fun he => hbs (he ▸ hcm)
    cases rest with
    | nil => rfl
    | cons r rs =>
      rw [show joinWithSlash ((pp ++ '/' :: b) :: r :: rs)
          = (pp ++ '/' :: b) ++ '/' :: joinWithSlash (r :: rs) from rfl,
        show joinWithSlash (pp :: b :: r :: rs)
          = pp ++ '/' :: joinWithSlash (b :: r :: rs) from rfl,
        show joinWithSlash (b :: r :: rs) = b ++ '/' :: joinWithSlash (r :: rs) from rfl]
      simp [List.append_assoc]

/-- `os.path.join` over nonempty separator-free segments is the slash join. -/
lemma ospJoin_eq_joinWithSlash : ∀ parts, (∀ s ∈ parts, s ≠ [] ∧ '/' ∉ s) →
    ospJoin parts = joinWithSlash parts := by
  intro parts hs
  cases parts with
  | nil => rfl
  | cons p rest =>
    obtain ⟨hp, hps⟩ := hs p (List.mem_cons_self p rest)
    exact foldl_joinTwo rest p hp
      (fun c hc he => hps (he ▸ List.mem_of_getLast?_eq_some hc))
      (fun s hmem => hs s (List.mem_cons_of_mem p hmem))

-- ---------------------------------------------------------------------------
-- The normpath component loop on relative paths (C8)
-- ---------------------------------------------------------------------------

/-- One `npStep` on a relative path preserves the accumulator invariant. -/
lemma npStep_good {acc : List (List Char)} {comp : List Char}
    (hg : GoodAcc acc) (hcomp : '/' ∉ comp) : GoodAcc (npStep false acc comp) := by
  obtain ⟨helems, restRev, k, hshape, hdd⟩ := hg
  rw [npStep.eq_def]
  by_cases hskip : comp = [] ∨ comp = ['.']
  · rw [if_pos hskip]
    exact ⟨helems, restRev, k, hshape, hdd⟩
  · rw [if_neg hskip]
    push_neg at hskip
    by_cases hcond : comp ≠ ['.', '.'] ∨ (false = false ∧ acc = [])
        ∨ (acc ≠ [] ∧ acc.head? = some ['.', '.'])
    · rw [if_pos hcond]
      refine ⟨?_, ?_⟩
      · intro x hx
        rcases List.mem_cons.mp hx with rfl | hx2
        · exact ⟨hskip.1, hskip.2, hcomp⟩
        · exact helems x hx2
      · by_cases hddc : comp = ['.', '.']
        · subst hddc
          have hacc : acc = List.replicate k ['.', '.'] := by
            rcases hcond with hc | ⟨_, hc⟩ | ⟨hne, hc⟩
            · exact absurd rfl hc
            · rw [hc] at hshape ⊢
              rcases List.append_eq_nil.mp hshape.symm with ⟨h1, h2⟩
              exact h2.symm
            · cases hr : restRev with
              | nil => rw [hshape, hr]; rfl
              | cons r0 rr =>
                exfalso
                rw [hshape, hr] at hc
                simp only [List.cons_append, List.head?_cons,
                  Option.some.injEq] at hc
                exact hdd (hr ▸ (hc ▸ List.mem_cons_self r0 rr))
          rw [hacc]
          exact ⟨[], k + 1, by rw [List.replicate_succ, List.nil_append], List.not_mem_nil _⟩
        · exact ⟨comp :: restRev, k, by rw [hshape, List.cons_append], by
            intro hmem
            rcases List.mem_cons.mp hmem with h | h
            · exact hddc h.symm
            · exact hdd h⟩
    · rw [if_neg hcond]
      cases hacc : acc with
      | nil => exact ⟨by simp, [], 0, rfl, List.not_mem_nil _⟩
      | cons x t =>
        refine ⟨fun y hy => helems y (hacc ▸ List.mem_cons_of_mem x hy), ?_⟩
        cases hr : restRev with
        | nil =>
          rw [hr, List.nil_append] at hshape
          cases k with
          | zero => rw [hacc] at hshape; cases hshape
          | succ k2 =>
            rw [List.replicate_succ] at hshape
            rw [hacc] at hshape
            have ht : t = List.replicate k2 ['.', '.'] :=
              (List.cons_eq_cons.mp hshape).2
            exact ⟨[], k2, by rw [ht, List.nil_append], List.not_mem_nil _⟩
        | cons r0 rr =>
          rw [hr, List.cons_append] at hshape
          rw [hacc] at hshape
          have ht : t = rr ++ List.replicate k ['.', '.'] :=
            (List.cons_eq_cons.mp hshape).2
          exact ⟨rr, k, ht, fun hmem => hdd (hr ▸ List.mem_cons_of_mem r0 hmem)⟩

/-- The whole component fold preserves the accumulator invariant. -/
lemma foldl_npStep_good : ∀ (comps : List (List Char)) (acc : List (List Char)),
    GoodAcc acc → (∀ c ∈ comps, '/' ∉ c) →
    GoodAcc (List.foldl (npStep false) acc comps) := by
  intro comps
  induction comps with
  | nil => intro acc hg _; exact hg
  | cons c t ih =>
    intro acc hg hc
    rw [List.foldl_cons]
    exact ih _ (npStep_good hg (hc c (List.mem_cons_self c t)))
      (fun x hx => hc x (List.mem_cons_of_mem c hx))

/-- Leading `".."` components accumulate one by one. -/
lemma foldl_npStep_dots : ∀ (k j : Nat),
    List.foldl (npStep false) (List.replicate j ['.', '.'])
        (List.replicate k ['.', '.'])
      = List.replicate (k + j) ['.', '.'] := by
  intro k
  induction k with
  | zero => intro j; rw [Nat.zero_add]; rfl
  | succ k2 ih =>
    intro j
    rw [List.replicate_succ, List.foldl_cons]
    have hstep : npStep false (List.replicate j ['.', '.']) ['.', '.']
        = List.replicate (j + 1) ['.', '.'] := by
      rw [npStep.eq_def, if_neg (by simp), if_pos ?c]
      case c =>
        cases j with
        | zero => exact Or.inr (Or.inl ⟨rfl, rfl⟩)
        | succ j2 => exact Or.inr (Or.inr ⟨by simp, by rw [List.replicate_succ]; rfl⟩)
      rw [List.replicate_succ]
    rw [hstep, ih (j + 1), Nat.succ_add, Nat.add_succ]

/-- Ordinary components are pushed one by one. -/
lemma foldl_npStep_plain : ∀ (rest : List (List Char)) (acc : List (List Char)),
    (∀ x ∈ rest, x ≠ [] ∧ x ≠ ['.'] ∧ x ≠ ['.', '.']) →
    List.foldl (npStep false) acc rest = rest.reverse ++ acc := by
  intro rest
  induction rest with
  | nil => intro acc _; rw [List.reverse_nil, List.nil_append]; rfl
  | cons x t ih =>
    intro acc hx
    obtain ⟨h1, h2, h3⟩ := hx x (List.mem_cons_self x t)
    rw [List.foldl_cons,
      show npStep false acc x = x :: acc by
        rw [npStep.eq_def, if_neg (by simp [h1, h2]), if_pos (Or.inl h3)],
      ih (x :: acc) (fun y hy => hx y (List.mem_cons_of_mem x hy))]
    simp

/-- The component loop is the identity on already-normalized relative
segment lists. -/
lemma foldl_npStep_fix {l : List (List Char)} (hg : GoodSegs l) :
    (List.foldl (npStep false) [] l).reverse = l := by
  obtain ⟨helems, k, rest, hshape, hdd⟩ := hg
  subst hshape
  rw [List.foldl_append]
  rw [show List.foldl (npStep false) [] (List.replicate k ['.', '.'])
      = List.replicate k ['.', '.'] by
    have := foldl_npStep_dots k 0
    rw [Nat.add_zero] at this
    exact this]
  rw [foldl_npStep_plain rest (List.replicate k ['.', '.']) ?good]
  case good =>
    intro x hx
    have hm : x ∈ List.replicate k ['.', '.'] ++ rest :=
      List.mem_append.mpr (Or.inr hx)
    refine ⟨(helems x hm).1, (helems x hm).2.1, fun he => hdd (he ▸ hx)⟩
  rw [List.reverse_append, List.reverse_reverse, List.reverse_replicate]

-- ---------------------------------------------------------------------------
-- `remove_repeated_segments` on relative paths (C8)
-- ---------------------------------------------------------------------------

/-- A join headed by a nonempty separator-free segment does not start with
the separator. -/
lemma startsWith_slash_join_false (a : List Char) (rest : List (List Char))
    (ha : a ≠ []) (hs : '/' ∉ a) :
    startsWithChars ['/'] (joinWithSlash (a :: rest)) = false := by
  obtain ⟨q, hq⟩ := joinWithSlash_head_append a rest
  rw [hq]
  cases a with
  | nil => exact absurd rfl ha
  | cons c t =>
    have hc : (('/' : Char) == c) = false := by
      rw [beq_eq_false_iff_ne]
      exact fun he => hs (he ▸ List.mem_cons_self c t)
    rw [List.cons_append, startsWithChars, hc, Bool.false_and]

/-- Reversing a good accumulator yields a normalized segment list. -/
lemma GoodSegs_of_reverse {acc : List (List Char)} (hg : GoodAcc acc) :
    GoodSegs acc.reverse := by
  obtain ⟨helems, restRev, k, hshape, hdd⟩ := hg
  refine ⟨fun x hx => helems x (List.mem_reverse.mp hx), k, restRev.reverse, ?_, ?_⟩
  · rw [hshape, List.reverse_append, List.reverse_replicate]
  · intro hmem
    exact hdd (List.mem_reverse.mp hmem)

/-- Collapsing a cons whose head repeats immediately drops one copy. -/
lemma dedupAdj_cons_self (a : List Char) (t : List (List Char)) :
    dedupAdj (a :: a :: t) = dedupAdj (a :: t) := by
  rw [show dedupAdj (a :: a :: t)
      = if a = a then dedupAdj (a :: t) else a :: dedupAdj (a :: t) from rfl,
    if_pos rfl]

/-- Collapsing a cons with a fresh head keeps the head. -/
lemma dedupAdj_cons_not_mem {a : List Char} : ∀ {rest}, a ∉ rest →
    dedupAdj (a :: rest) = a :: dedupAdj rest := by
  intro rest hmem
  cases rest with
  | nil => rfl
  | cons b t =>
    have hab : a ≠ b := fun he => hmem (he ▸ List.mem_cons_self b t)
    rw [show dedupAdj (a :: b :: t)
        = if a = b then dedupAdj (b :: t) else a :: dedupAdj (b :: t) from rfl,
      if_neg hab]

/-- A leading run of a repeated segment collapses onto a single copy. -/
lemma dedupAdj_replicate_append (a : List Char) :
    ∀ (k : Nat) (rest : List (List Char)),
    dedupAdj (List.replicate (k + 1) a ++ rest) = dedupAdj (a :: rest) := by
  intro k
  induction k with
  | zero => intro rest; rfl
  | succ k2 ih =>
    intro rest
    rw [List.replicate_succ, List.cons_append,
      show List.replicate (k2 + 1) a ++ rest = a :: (List.replicate k2 a ++ rest) from by
        rw [List.replicate_succ, List.cons_append],
      dedupAdj_cons_self,
      show a :: (List.replicate k2 a ++ rest) = List.replicate (k2 + 1) a ++ rest from by
        rw [List.replicate_succ, List.cons_append],
      ih rest]

/-- Adjacent dedup preserves the normalized-relative shape. -/
lemma GoodSegs_dedupAdj {l : List (List Char)} (hg : GoodSegs l) :
    GoodSegs (dedupAdj l) := by
  obtain ⟨helems, k, rest, hshape, hdd⟩ := hg
  refine ⟨fun x hx => helems x (hshape ▸ mem_dedupAdj (hshape ▸ hx)), ?_⟩
  subst hshape
  cases k with
  | zero =>
    refine ⟨0, dedupAdj rest, ?_, fun hm => hdd (mem_dedupAdj hm)⟩
    rfl
  | succ k2 =>
    refine ⟨1, dedupAdj rest, ?_, fun hm => hdd (mem_dedupAdj hm)⟩
    rw [dedupAdj_replicate_append _ k2 rest, dedupAdj_cons_not_mem hdd]
    rfl

/-- Adjacent dedup of a nonempty list is nonempty. -/
lemma dedupAdj_ne_nil : ∀ {l : List (List Char)}, l ≠ [] → dedupAdj l ≠ [] := by
  intro l h
  cases l with
  | nil => exact absurd rfl h
  | cons a t =>
    intro hc
    have hh := dedupAdj_head? (a :: t)
    rw [hc] at hh
    exact Option.noConfusion hh

/-- On a nonempty relative path, `normpath` reduces to the component fold. -/
lemma normpath_rel_eq (p : String) (hne : p ≠ "")
    (h : startsWithChars ['/'] p.toList = false) :
    normpath p =
      if joinWithSlash (List.foldl (npStep false) [] (splitChar '/' p.toList)).reverse = []
      then "."
      else ⟨joinWithSlash (List.foldl (npStep false) [] (splitChar '/' p.toList)).reverse⟩ := by
  simp only [normpath]
  rw [if_neg hne, h]
  rfl

/-- On relative paths, `normpath` returns `"."` or a joined normalized
segment list. -/
lemma normpath_relative (p : String) (h : startsWithChars ['/'] p.toList = false) :
    normpath p = "." ∨
    ∃ D, GoodSegs D ∧ D ≠ [] ∧ (normpath p).toList = joinWithSlash D := by
  by_cases hp : p = ""
  · exact Or.inl (by rw [hp]; rfl)
  · have hgood : GoodSegs (List.foldl (npStep false) [] (splitChar '/' p.toList)).reverse :=
      GoodSegs_of_reverse (foldl_npStep_good (splitChar '/' p.toList) []
        ⟨fun x hx => absurd hx (List.not_mem_nil x), [], 0, rfl, List.not_mem_nil _⟩
        (fun c hc => mem_splitChar_no_sep '/' p.toList c hc))
    cases hrev : (List.foldl (npStep false) [] (splitChar '/' p.toList)).reverse with
    | nil =>
      left
      rw [normpath_rel_eq p hp h, hrev]
      decide
    | cons a rest =>
      right
      rw [hrev] at hgood
      refine ⟨a :: rest, hgood, by simp, ?_⟩
      rw [normpath_rel_eq p hp h, hrev,
        if_neg (joinWithSlash_ne_nil (a :: rest) (by simp)
          (fun s hs => (hgood.1 s hs).1))]
      rfl

/-- On relative paths, `remove_repeated_segments` returns `"."` or a joined,
adjacent-deduplicated, normalized segment list. -/
lemma rrs_relative (p : String) (h : startsWithChars ['/'] p.toList = false) :
    remove_repeated_segments p = "." ∨
    ∃ D, GoodSegs D ∧ D ≠ [] ∧ noAdjDupB D = true ∧
      (remove_repeated_segments p).toList = joinWithSlash D := by
  rcases normpath_relative p h with hdot | ⟨D, hg, hne, hjoin⟩
  · left
    simp only [remove_repeated_segments, hdot]
    decide
  · right
    refine ⟨dedupAdj D, GoodSegs_dedupAdj hg, dedupAdj_ne_nil hne,
      noAdjDupB_dedupAdj D, ?_⟩
    simp only [remove_repeated_segments]
    rw [hjoin, splitChar_joinWithSlash D hne (fun s hs => (hg.1 s hs).2.2),
      collapseLoop_eq_dedupAdj D.length D (Nat.le_refl _),
      ospJoin_eq_joinWithSlash (dedupAdj D)
        (fun s hs => ⟨((GoodSegs_dedupAdj hg).1 s hs).1,
          ((GoodSegs_dedupAdj hg).1 s hs).2.2⟩)]
    rfl

/-- `remove_repeated_segments` fixes a string that joins a deduplicated
normalized segment list. -/
lemma rrs_fix (q : String) (D : List (List Char)) (hg : GoodSegs D) (hne : D ≠ [])
    (hdd : noAdjDupB D = true) (hq : q.toList = joinWithSlash D) :
    remove_repeated_segments q = q := by
  obtain ⟨a, rest, rfl⟩ : ∃ a rest, D = a :: rest := by
    cases D with
    | nil => exact absurd rfl hne
    | cons a rest => exact ⟨a, rest, rfl⟩
  have ha := hg.1 a (List.mem_cons_self a rest)
  have hstart : startsWithChars ['/'] q.toList = false := by
    rw [hq]; exact startsWith_slash_join_false a rest ha.1 ha.2.2
  have hjne : joinWithSlash (a :: rest) ≠ [] :=
    joinWithSlash_ne_nil (a :: rest) (by simp) (fun s hs => (hg.1 s hs).1)
  have hqne : q ≠ "" := by
    intro hc
    have hl : q.toList = [] := by rw [hc]; rfl
    rw [hq] at hl
    exact hjne hl
  have hsplit : splitChar '/' q.toList = a :: rest := by
    rw [hq]
    exact splitChar_joinWithSlash (a :: rest) (by simp)
      (fun s hs => (hg.1 s hs).2.2)
  have hnorm : normpath q = q := by
    rw [normpath_rel_eq q hqne hstart, hsplit, foldl_npStep_fix hg, if_neg hjne, ← hq]
    rfl
  simp only [remove_repeated_segments]
  rw [hnorm, hsplit, collapseLoop_eq_dedupAdj _ _ (Nat.le_refl _),
    dedupAdj_eq_self hdd,
    ospJoin_eq_joinWithSlash (a :: rest)
      (fun s hs => ⟨(hg.1 s hs).1, (hg.1 s hs).2.2⟩),
    ← hq]
  rfl

/-- C8: on every relative path, `remove_repeated_segments` is idempotent; its
scan-until-fixpoint loop collapses every run of adjacent identical segments
to a single copy (it computes the one-pass adjacent dedup, whose output has
no adjacent duplicates left); and the path `"A/A/A/B"` collapses to
`"A/B"`. -/
theorem C8_collapse_idempotent_runs (p : String)
    (h : startsWithChars ['/'] p.toList = false) :
    remove_repeated_segments (remove_repeated_segments p) = remove_repeated_segments p
    ∧ (∀ parts : List (List Char),
        collapseLoop parts.length parts = dedupAdj parts
        ∧ noAdjDupB (dedupAdj parts) = true)
    ∧ remove_repeated_segments "A/A/A/B" = "A/B" := by
  refine ⟨?_, fun parts => ⟨collapseLoop_eq_dedupAdj parts.length parts (Nat.le_refl _),
    noAdjDupB_dedupAdj parts⟩, by decide⟩
  rcases rrs_relative p h with hdot | ⟨D, hg, hne, hdd, hq⟩
  · rw [hdot]; decide
  · exact rrs_fix _ D hg hne hdd hq

/-- C8 witness: the idempotence and run-collapsing theorem applied to the
concrete relative path `"A/A/A/B"`. -/
theorem C8_witness :
    startsWithChars ['/'] ("A/A/A/B" : String).toList = false
    ∧ (remove_repeated_segments (remove_repeated_segments "A/A/A/B")
        = remove_repeated_segments "A/A/A/B"
      ∧ (∀ parts : List (List Char),
          collapseLoop parts.length parts = dedupAdj parts
          ∧ noAdjDupB (dedupAdj parts) = true)
      ∧ remove_repeated_segments "A/A/A/B" = "A/B") :=
  ⟨by decide, C8_collapse_idempotent_runs "A/A/A/B" (by decide)⟩

end ICDD
